import Mathlib

/-!
The gotranx C extension template: trajectory drivers and monitor sampler.

Shallow embedding of `examples/compile-c-extension/template.c`.

* A C buffer (`double*`, `int*`, or a local array) is a `List`; every read and
  write goes through a checked access (`rd`, `wr`) that fails with the name of
  the buffer when the index is negative or not below the length of the buffer.
* C `int` values (`num_timesteps`, `length`, `num`, the loop counters and the
  index expressions built from them) are mathematical integers (`Int`). Every
  index expression of a run without a failed access is below the length of the
  buffer it indexes and every loop counter is at most one more than its bound,
  so the model computes what the C code computes whenever the buffer lengths
  and loop bounds are below the largest `int`.
* A `for` loop over an integer range is the counted loop `loopFrom`: the trip
  count is the size of the range, zero when the range is empty.
* The buffers passed to one call are distinct objects: a write to one buffer does
  not change another.
* `double` values are an arbitrary type `α`: the drivers and the sampler only
  move values between buffers. The numerical claims instantiate `α` with exact
  numbers (a commutative ring, the reals); `main`, which adds `dt` to `t`,
  is embedded over a field.
* The functions `forward_explicit_euler`, `forward_generalized_rush_larsen`,
  `monitor_values` and the constants `NUM_STATES`, `NUM_PARAMS`, `NUM_MONITORED`
  come from generated model code that is not part of the template; they are
  the fields of `Model`.
-/

namespace Gotranx

/-- Names of the buffers accessed by the template; a failed access reports the buffer. -/
inductive Buf where
  | u | parameters | u_values | t_values | u_temp | states | m_temp | indices | monitored
  deriving DecidableEq, Repr

deriving instance DecidableEq for Except

/-- Model interface used by the template. The generated model code is not in the template
file: its compile-time dimensions and its functions are taken as parameters. Each function
with an output array argument (`u_temp`, `m_temp`, `states`, `parameters`) is the map from
its inputs to the contents of that array. -/
structure Model (α : Type) where
  NUM_STATES : Nat
  NUM_PARAMS : Nat
  NUM_MONITORED : Nat
  forward_explicit_euler : List α → α → α → List α → List α
  forward_generalized_rush_larsen : List α → α → α → List α → List α
  monitor_values : α → List α → List α → List α
  init_state_values : List α → List α
  init_parameter_values : List α → List α

/-- The model functions, given a state of `NUM_STATES` entries, fill the arrays they are
handed, which have the declared sizes: `u_temp[NUM_STATES]` and `m_temp[NUM_MONITORED]`. -/
def Model.WellSized {α : Type} (M : Model α) : Prop :=
  (∀ u t dt p, u.length = M.NUM_STATES →
    (M.forward_explicit_euler u t dt p).length = M.NUM_STATES) ∧
  (∀ u t dt p, u.length = M.NUM_STATES →
    (M.forward_generalized_rush_larsen u t dt p).length = M.NUM_STATES) ∧
  (∀ t u p, u.length = M.NUM_STATES → (M.monitor_values t u p).length = M.NUM_MONITORED)

/-- Checked read `b[i]`. -/
def rd {α : Type} (b : Buf) (xs : List α) (i : Int) : Except Buf α :=
  if 0 ≤ i then
    match xs[i.toNat]? with
    | some x => .ok x
    | none => .error b
  else .error b

/-- Checked write `b[i] = x`. -/
def wr {α : Type} (b : Buf) (xs : List α) (i : Int) (x : α) : Except Buf (List α) :=
  if 0 ≤ i ∧ i.toNat < xs.length then .ok (xs.set i.toNat x) else .error b

/-- Runs `body i` for `i = lo, lo + 1, ...`, `r` times, threading the state. -/
def loopFrom {σ : Type} (body : Int → σ → Except Buf σ) : Nat → Int → σ → Except Buf σ
  | 0, _, s => .ok s
  | r + 1, i, s =>
    match body i s with
    | .ok s1 => loopFrom body r (i + 1) s1
    | .error e => .error e

/-- The loop `for (i = lo; i < hi; i++) body`. -/
def forLt {σ : Type} (lo hi : Int) (body : Int → σ → Except Buf σ) (s : σ) : Except Buf σ :=
  loopFrom body (hi - lo).toNat lo s

/-- The loop `for (i = lo; i <= hi; i++) body`. -/
def forLe {σ : Type} (lo hi : Int) (body : Int → σ → Except Buf σ) (s : σ) : Except Buf σ :=
  loopFrom body (hi + 1 - lo).toNat lo s

/-- Variables of a trajectory driver that live across iterations of its outer loop. -/
structure DriverState (α : Type) where
  save_it : Int
  u : List α
  u_values : List α

/-- Body of the inner loop of both drivers (lines 17-20 and 35-38):
`u_values[save_it * NUM_STATES + j] = u_temp[j]; u[j] = u_temp[j];`. -/
def copy_body {α : Type} (NUM_STATES : Nat) (u_temp : List α) (j : Int)
    (s : DriverState α) : Except Buf (DriverState α) := do
  let x ← rd Buf.u_temp u_temp j
  let u_values ← wr Buf.u_values s.u_values (s.save_it * NUM_STATES + j) x
  let y ← rd Buf.u_temp u_temp j
  let u ← wr Buf.u s.u j y
  pure { s with u := u, u_values := u_values }

/-- Body of the outer loop of `ode_solve_forward_euler` (lines 15-21). -/
def euler_body {α : Type} (M : Model α) (parameters t_values : List α) (dt : α) (it : Int)
    (s : DriverState α) : Except Buf (DriverState α) := do
  let t ← rd Buf.t_values t_values (it - 1)
  let u_temp := M.forward_explicit_euler s.u t dt parameters
  let s1 ← forLt 0 M.NUM_STATES (copy_body M.NUM_STATES u_temp) s
  pure { s1 with save_it := s1.save_it + 1 }

/-- Body of the outer loop of `ode_solve_rush_larsen` (lines 33-39). -/
def rush_larsen_body {α : Type} (M : Model α) (parameters t_values : List α) (dt : α)
    (it : Int) (s : DriverState α) : Except Buf (DriverState α) := do
  let t ← rd Buf.t_values t_values (it - 1)
  let u_temp := M.forward_generalized_rush_larsen s.u t dt parameters
  let s1 ← forLt 0 M.NUM_STATES (copy_body M.NUM_STATES u_temp) s
  pure { s1 with save_it := s1.save_it + 1 }

/-- Embedding of `ode_solve_forward_euler`: the final contents of `u` and `u_values`. -/
def ode_solve_forward_euler {α : Type} (M : Model α) (u parameters u_values t_values : List α)
    (num_timesteps : Int) (dt : α) : Except Buf (List α × List α) := do
  let s ← forLe 1 num_timesteps (euler_body M parameters t_values dt)
    { save_it := 1, u := u, u_values := u_values }
  pure (s.u, s.u_values)

/-- Embedding of `ode_solve_rush_larsen`: the final contents of `u` and `u_values`. -/
def ode_solve_rush_larsen {α : Type} (M : Model α) (u parameters u_values t_values : List α)
    (num_timesteps : Int) (dt : α) : Except Buf (List α × List α) := do
  let s ← forLe 1 num_timesteps (rush_larsen_body M parameters t_values dt)
    { save_it := 1, u := u, u_values := u_values }
  pure (s.u, s.u_values)

/-- The outer loop body of a driver with the model step as a parameter; `euler_body` and
`rush_larsen_body` are its two instances. -/
def step_body {α : Type} (step : List α → α → α → List α → List α) (NUM_STATES : Nat)
    (parameters t_values : List α) (dt : α) (it : Int) (s : DriverState α) :
    Except Buf (DriverState α) := do
  let t ← rd Buf.t_values t_values (it - 1)
  let u_temp := step s.u t dt parameters
  let s1 ← forLt 0 NUM_STATES (copy_body NUM_STATES u_temp) s
  pure { s1 with save_it := s1.save_it + 1 }

/-- Variables of `monitored_values` that live across iterations of its outer loop. -/
structure SamplerState (α : Type) where
  monitored : List α
  u : List α

/-- Body of the first inner loop of `monitored_values` (line 52):
`u[j] = states[i * NUM_STATES + j];`. -/
def load_body {α : Type} (NUM_STATES : Nat) (states : List α) (i : Int) (j : Int)
    (u : List α) : Except Buf (List α) := do
  let x ← rd Buf.states states (i * NUM_STATES + j)
  wr Buf.u u j x

/-- Body of the second inner loop of `monitored_values` (line 56):
`monitored[i * num + j] = m_temp[indices[j]];`. -/
def select_body {α : Type} (m_temp : List α) (indices : List Int) (num : Int) (i : Int)
    (j : Int) (monitored : List α) : Except Buf (List α) := do
  let ix ← rd Buf.indices indices j
  let x ← rd Buf.m_temp m_temp ix
  wr Buf.monitored monitored (i * num + j) x

/-- Body of the outer loop of `monitored_values` (lines 50-57). -/
def sample_body {α : Type} (M : Model α) (states parameters t_values : List α)
    (indices : List Int) (num : Int) (i : Int) (s : SamplerState α) :
    Except Buf (SamplerState α) := do
  let t ← rd Buf.t_values t_values i
  let u ← forLt 0 M.NUM_STATES (load_body M.NUM_STATES states i) s.u
  let m_temp := M.monitor_values t u parameters
  let monitored ← forLt 0 num (select_body m_temp indices num i) s.monitored
  pure { monitored := monitored, u := u }

/-- Embedding of `monitored_values`: the final contents of `monitored` and `u`. -/
def monitored_values {α : Type} (M : Model α) (monitored states parameters u t_values : List α)
    (length : Int) (indices : List Int) (num : Int) : Except Buf (List α × List α) := do
  let s ← forLt 0 length (sample_body M states parameters t_values indices num)
    { monitored := monitored, u := u }
  pure (s.monitored, s.u)

/-- Row `k` of a row-major buffer with rows of `w` entries: entries `k*w .. k*w + w - 1`. -/
def row {α : Type} (w : Nat) (buf : List α) (k : Nat) : List α :=
  (buf.drop (k * w)).take w

/-- The state after `k` sequential steps from `u`, step `k` reading its time from the grid
at index `k - 1` (the specification of the drivers; a missing grid entry leaves the state). -/
def stepped {α : Type} (step : List α → α → α → List α → List α) (parameters t_values : List α)
    (dt : α) (u : List α) : Nat → List α
  | 0 => u
  | k + 1 =>
    match t_values[k]? with
    | some t => step (stepped step parameters t_values dt u k) t dt parameters
    | none => stepped step parameters t_values dt u k

/-- The entry of `m_temp` selected for output column `j`: `m_temp[indices[j]]`, when both
lookups are in bounds. -/
def pick {α : Type} (m_temp : List α) (indices : List Int) (j : Nat) : Option α :=
  match indices[j]? with
  | some ix => if 0 ≤ ix then m_temp[ix.toNat]? else none
  | none => none

/-- The full monitored vector at sample `i`: `monitor_values(t_values[i], row i of states,
parameters)` (the specification of the sampler; empty when the grid has no entry `i`). -/
def monitor_at {α : Type} (M : Model α) (states parameters t_values : List α) (i : Nat) :
    List α :=
  match t_values[i]? with
  | some t => M.monitor_values t (row M.NUM_STATES states i) parameters
  | none => []

/-- The linear test model `u' = -k*u`: one state, Euler step `u + dt * (-k * u)`. -/
def linearModel {α : Type} [CommRing α] (k : α) : Model α where
  NUM_STATES := 1
  NUM_PARAMS := 0
  NUM_MONITORED := 1
  forward_explicit_euler := fun u _ dt _ => u.map (fun x => x + dt * (-k * x))
  forward_generalized_rush_larsen := fun u _ dt _ => u.map (fun x => x + dt * (-k * x))
  monitor_values := fun _ u _ => u
  init_state_values := fun _ => [1]
  init_parameter_values := fun _ => []

/-- A single gating variable with constants `u_inf` and `tau`: the Rush-Larsen step is
`u + (u_inf - u) * (1 - ex (-dt / tau))`, with `ex` the exponential function, and the Euler
step is `u + dt * ((u_inf - u) / tau)`. -/
def gateModel {α : Type} [Field α] (ex : α → α) (u_inf tau : α) : Model α where
  NUM_STATES := 1
  NUM_PARAMS := 0
  NUM_MONITORED := 1
  forward_explicit_euler := fun u _ dt _ => u.map (fun x => x + dt * ((u_inf - x) / tau))
  forward_generalized_rush_larsen := fun u _ dt _ =>
    u.map (fun x => x + (u_inf - x) * (1 - ex (-dt / tau)))
  monitor_values := fun _ u _ => u
  init_state_values := fun _ => [0]
  init_parameter_values := fun _ => []

/-- A toy model on integers with two states and three monitored quantities. -/
def toyModel : Model Int where
  NUM_STATES := 2
  NUM_PARAMS := 1
  NUM_MONITORED := 3
  forward_explicit_euler := fun u t dt p => [u.getD 0 0 + dt * u.getD 1 0, u.getD 1 0 + t + p.getD 0 0]
  forward_generalized_rush_larsen := fun u t dt p => [u.getD 0 0 + dt * u.getD 1 0, u.getD 1 0 * t - p.getD 0 0]
  monitor_values := fun t u p => [u.getD 0 0 + u.getD 1 0, t * p.getD 0 0, u.getD 1 0]
  init_state_values := fun _ => [1, 2]
  init_parameter_values := fun _ => [3]

/-- A driver with the model step and the state count as parameters; the source has the two
instances `ode_solve_forward_euler` and `ode_solve_rush_larsen`. -/
def ode_solve {α : Type} (step : List α → α → α → List α → List α) (NUM_STATES : Nat)
    (u parameters u_values t_values : List α) (num_timesteps : Int) (dt : α) :
    Except Buf (List α × List α) := do
  let s ← forLe 1 num_timesteps (step_body step NUM_STATES parameters t_values dt)
    { save_it := 1, u := u, u_values := u_values }
  pure (s.u, s.u_values)

/-! ### The functions over the whole memory of a call

The same functions with every buffer an argument points to kept in the state, so that a
statement about a buffer the function only reads can be made. -/

/-- The four buffers a driver is handed, and its local variable `save_it`. -/
structure DriverMem (α : Type) where
  u : List α
  parameters : List α
  u_values : List α
  t_values : List α
  save_it : Int

/-- Lines 18-19 and 36-37 on the memory of the call. -/
def copy_stmt {α : Type} (NUM_STATES : Nat) (u_temp : List α) (j : Int) (m : DriverMem α) :
    Except Buf (DriverMem α) := do
  let x ← rd Buf.u_temp u_temp j
  let u_values ← wr Buf.u_values m.u_values (m.save_it * NUM_STATES + j) x
  let y ← rd Buf.u_temp u_temp j
  let u ← wr Buf.u m.u j y
  pure { m with u := u, u_values := u_values }

/-- Lines 15-21 on the memory of the call. -/
def euler_stmt {α : Type} (M : Model α) (dt : α) (it : Int) (m : DriverMem α) :
    Except Buf (DriverMem α) := do
  let t ← rd Buf.t_values m.t_values (it - 1)
  let u_temp := M.forward_explicit_euler m.u t dt m.parameters
  let m1 ← forLt 0 M.NUM_STATES (copy_stmt M.NUM_STATES u_temp) m
  pure { m1 with save_it := m1.save_it + 1 }

/-- Lines 33-39 on the memory of the call. -/
def rush_larsen_stmt {α : Type} (M : Model α) (dt : α) (it : Int) (m : DriverMem α) :
    Except Buf (DriverMem α) := do
  let t ← rd Buf.t_values m.t_values (it - 1)
  let u_temp := M.forward_generalized_rush_larsen m.u t dt m.parameters
  let m1 ← forLt 0 M.NUM_STATES (copy_stmt M.NUM_STATES u_temp) m
  pure { m1 with save_it := m1.save_it + 1 }

/-- The function `ode_solve_forward_euler` on the memory of the call. -/
def ode_solve_forward_euler_mem {α : Type} (M : Model α) (m : DriverMem α)
    (num_timesteps : Int) (dt : α) : Except Buf (DriverMem α) :=
  forLe 1 num_timesteps (euler_stmt M dt) { m with save_it := 1 }

/-- The function `ode_solve_rush_larsen` on the memory of the call. -/
def ode_solve_rush_larsen_mem {α : Type} (M : Model α) (m : DriverMem α)
    (num_timesteps : Int) (dt : α) : Except Buf (DriverMem α) :=
  forLe 1 num_timesteps (rush_larsen_stmt M dt) { m with save_it := 1 }

/-- The outer loop body of a driver on the memory of the call, with the step a parameter. -/
def step_stmt {α : Type} (step : List α → α → α → List α → List α) (NUM_STATES : Nat)
    (dt : α) (it : Int) (m : DriverMem α) : Except Buf (DriverMem α) := do
  let t ← rd Buf.t_values m.t_values (it - 1)
  let u_temp := step m.u t dt m.parameters
  let m1 ← forLt 0 NUM_STATES (copy_stmt NUM_STATES u_temp) m
  pure { m1 with save_it := m1.save_it + 1 }

/-- The six buffers `monitored_values` is handed. -/
structure SamplerMem (α : Type) where
  monitored : List α
  states : List α
  parameters : List α
  u : List α
  t_values : List α
  indices : List Int

/-- Line 52 on the memory of the call. -/
def load_stmt {α : Type} (NUM_STATES : Nat) (i : Int) (j : Int) (m : SamplerMem α) :
    Except Buf (SamplerMem α) := do
  let x ← rd Buf.states m.states (i * NUM_STATES + j)
  let u ← wr Buf.u m.u j x
  pure { m with u := u }

/-- Line 56 on the memory of the call. -/
def select_stmt {α : Type} (m_temp : List α) (num : Int) (i : Int) (j : Int)
    (m : SamplerMem α) : Except Buf (SamplerMem α) := do
  let ix ← rd Buf.indices m.indices j
  let x ← rd Buf.m_temp m_temp ix
  let monitored ← wr Buf.monitored m.monitored (i * num + j) x
  pure { m with monitored := monitored }

/-- Lines 50-57 on the memory of the call. -/
def sample_stmt {α : Type} (M : Model α) (num : Int) (i : Int) (m : SamplerMem α) :
    Except Buf (SamplerMem α) := do
  let t ← rd Buf.t_values m.t_values i
  let m1 ← forLt 0 M.NUM_STATES (load_stmt M.NUM_STATES i) m
  let m_temp := M.monitor_values t m1.u m1.parameters
  forLt 0 num (select_stmt m_temp num i) m1

/-- The function `monitored_values` on the memory of the call. -/
def monitored_values_mem {α : Type} (M : Model α) (m : SamplerMem α) (length : Int)
    (num : Int) : Except Buf (SamplerMem α) :=
  forLt 0 length (sample_stmt M num) m

/-- Puts the buffers a driver writes back into the memory of the call. -/
def DriverMem.put {α : Type} (m : DriverMem α) (s : DriverState α) : DriverMem α :=
  { m with save_it := s.save_it, u := s.u, u_values := s.u_values }

/-- Puts the buffers the sampler writes back into the memory of the call. -/
def SamplerMem.put {α : Type} (m : SamplerMem α) (s : SamplerState α) : SamplerMem α :=
  { m with monitored := s.monitored, u := s.u }


/-! ### The benchmark harness `main`

Printing and the clock readings are left out. The command line is the value `atoi(argv[1])`
when an argument is given. The three `malloc`ed arrays start with arbitrary contents. Every
call of a model step is recorded, with its arguments and its result. -/

/-- The two schemes `main` runs. -/
inductive Scheme where
  | forward_euler | rush_larsen
  deriving DecidableEq, Repr

/-- One call of a model step made by `main`: the scheme, the arguments `states` and `t`, and
the contents of the output array `states_values` after the call. -/
structure StepCall (α : Type) where
  scheme : Scheme
  states : List α
  t : α
  values : List α
  deriving DecidableEq

/-- The variables of `main` that change in its loops, and the record of the calls made. -/
structure MainState (α : Type) where
  states : List α
  states_values : List α
  parameters : List α
  t : α
  calls : List (StepCall α)
  deriving DecidableEq

/-- How `main` ends: by `exit(EXIT_FAILURE)` or by `return` with a status. -/
inductive MainOutcome (α : Type) where
  | exit_failure (calls : List (StepCall α))
  | returned (status : Int) (s : MainState α)
  deriving DecidableEq

/-- Body of the Forward Euler loop of `main` (lines 107-108). -/
def main_euler_body {α : Type} [Add α] (M : Model α) (dt : α) (_it : Int) (s : MainState α) :
    Except Buf (MainState α) :=
  let states_values := M.forward_explicit_euler s.states s.t dt s.parameters
  .ok { s with
    states_values := states_values
    t := s.t + dt
    calls := s.calls ++ [{ scheme := Scheme.forward_euler, states := s.states, t := s.t,
                           values := states_values }] }

/-- Body of the Rush-Larsen loop of `main` (lines 121-122). -/
def main_rush_larsen_body {α : Type} [Add α] (M : Model α) (dt : α) (_it : Int)
    (s : MainState α) : Except Buf (MainState α) :=
  let states_values := M.forward_generalized_rush_larsen s.states s.t dt s.parameters
  .ok { s with
    states_values := states_values
    t := s.t + dt
    calls := s.calls ++ [{ scheme := Scheme.rush_larsen, states := s.states, t := s.t,
                           values := states_values }] }

/-- Lines 85-133 of `main`: the two timed loops, for a step count that passed the check.
`t_start = 0`, `dt = 0.02E-3`. -/
def main_run {α : Type} [Field α] (M : Model α) (num_timesteps : Int)
    (states0 values0 parameters0 : List α) : Except Buf (MainOutcome α) := do
  let t_start : α := 0
  let dt : α := 2 / 100000
  let parameters := M.init_parameter_values parameters0
  let t := t_start
  let states := M.init_state_values states0
  let s1 ← forLt 0 num_timesteps (main_euler_body M dt)
    { states := states, states_values := values0, parameters := parameters, t := t,
      calls := [] }
  let states2 := M.init_state_values s1.states
  let s2 ← forLt 0 num_timesteps (main_rush_larsen_body M dt) { s1 with states := states2 }
  pure (MainOutcome.returned 0 s2)

/-- Embedding of `main`: `argv1` is `atoi(argv[1])` when `argc > 1`. -/
def main {α : Type} [Field α] (M : Model α) (argv1 : Option Int)
    (states0 values0 parameters0 : List α) : Except Buf (MainOutcome α) :=
  match argv1 with
  | some v =>
    if v ≤ 0 then .ok (MainOutcome.exit_failure [])
    else main_run M v states0 values0 parameters0
  | none => main_run M 1000000 states0 values0 parameters0

/-- Number of calls of one scheme in a record of calls. -/
def count_calls {α : Type} (sch : Scheme) (calls : List (StepCall α)) : Nat :=
  calls.countP (fun c => c.scheme == sch)

/-- The state computed by the last call of one scheme in a record of calls. -/
def last_values {α : Type} (sch : Scheme) (calls : List (StepCall α)) : Option (List α) :=
  ((calls.filter (fun c => c.scheme == sch)).getLast?).map (fun c => c.values)

/-- The times passed to the calls of one scheme, in order. -/
def call_times {α : Type} (sch : Scheme) (calls : List (StepCall α)) : List α :=
  (calls.filter (fun c => c.scheme == sch)).map (fun c => c.t)


/-- A loop body of `main` with the step and its scheme as parameters; `main_euler_body` and
`main_rush_larsen_body` are its two instances. -/
def main_body {α : Type} [Add α] (step : List α → α → α → List α → List α) (sch : Scheme)
    (dt : α) (_it : Int) (s : MainState α) : Except Buf (MainState α) :=
  let states_values := step s.states s.t dt s.parameters
  .ok { s with
    states_values := states_values
    t := s.t + dt
    calls := s.calls ++ [{ scheme := sch, states := s.states, t := s.t,
                           values := states_values }] }

/-- The call that iteration `k` of a loop of `main` makes when the loop starts in state `s`:
always on the array `states` as it was before the loop, at time `s.t + k * dt`. -/
def nth_call {α : Type} [Field α] (step : List α → α → α → List α → List α) (sch : Scheme)
    (dt : α) (s : MainState α) (k : Nat) : StepCall α :=
  { scheme := sch, states := s.states, t := s.t + (k : α) * dt,
    values := step s.states (s.t + (k : α) * dt) dt s.parameters }


/-! ## Checked accesses and loops -/

theorem rd_ok {α : Type} (b : Buf) (xs : List α) (i : Int) (k : Nat) (x : α)
    (hi : i = (k : Int)) (hx : xs[k]? = some x) : rd b xs i = .ok x := by
  subst hi
  simp [rd, hx]

theorem rd_error {α : Type} (b : Buf) (xs : List α) (i : Int)
    (hi : i < 0 ∨ (xs.length : Int) ≤ i) : rd b xs i = .error b := by
  unfold rd
  split
  · rename_i h0
    have hlen : xs.length ≤ i.toNat := by omega
    rw [List.getElem?_eq_none hlen]
  · rfl

theorem wr_ok {α : Type} (b : Buf) (xs : List α) (i : Int) (k : Nat) (x : α)
    (hi : i = (k : Int)) (hk : k < xs.length) : wr b xs i x = .ok (xs.set k x) := by
  subst hi
  simp [wr, hk]

theorem loopFrom_add {σ : Type} (body : Int → σ → Except Buf σ) (a b : Nat) (lo : Int)
    (s : σ) :
    loopFrom body (a + b) lo s
      = (match loopFrom body a lo s with
         | .ok s1 => loopFrom body b (lo + a) s1
         | .error e => .error e) := by
  induction a generalizing lo s with
  | zero => simp [loopFrom]
  | succ a ih =>
    have e : a + 1 + b = (a + b) + 1 := by omega
    rw [e]
    simp only [loopFrom]
    cases h : body lo s with
    | error e => rfl
    | ok s1 =>
      simp only []
      rw [ih]
      have e2 : lo + 1 + (a : Int) = lo + ((a + 1 : Nat) : Int) := by push_cast; ring
      rw [e2]

/-- Invariant rule for a counted loop whose body never fails while the invariant holds. -/
theorem loopFrom_inv {σ : Type} (body : Int → σ → Except Buf σ) (Inv : Nat → σ → Prop)
    (r : Nat) (lo : Int) (s : σ) (h0 : Inv 0 s)
    (hstep : ∀ (k : Nat) (s1 : σ), k < r → Inv k s1 →
      ∃ s2, body (lo + (k : Int)) s1 = .ok s2 ∧ Inv (k + 1) s2) :
    ∃ s3, loopFrom body r lo s = .ok s3 ∧ Inv r s3 := by
  induction r generalizing lo s Inv with
  | zero => exact ⟨s, rfl, h0⟩
  | succ r ih =>
    obtain ⟨s2, hb, hi⟩ := hstep 0 s (Nat.succ_pos r) h0
    simp only [Nat.cast_zero, add_zero] at hb
    simp only [loopFrom, hb]
    apply ih (fun k => Inv (k + 1)) (lo + 1) s2 hi
    intro k s1 hk hinv
    obtain ⟨s4, hb4, hi4⟩ := hstep (k + 1) s1 (Nat.succ_lt_succ hk) hinv
    refine ⟨s4, ?_, hi4⟩
    rw [← hb4]
    congr 1
    push_cast
    ring

/-! ## The inner copy loop of the drivers -/

theorem copy_loop_spec {α : Type} (NS : Nat) (u_temp : List α) (s : DriverState α) (c : Nat)
    (hc : s.save_it = (c : Int)) (htemp : u_temp.length = NS) (hu : s.u.length = NS)
    (huv : (c + 1) * NS ≤ s.u_values.length) :
    ∃ s3, forLt 0 NS (copy_body NS u_temp) s = .ok s3 ∧ s3.save_it = (c : Int) ∧
      s3.u = u_temp ∧ s3.u_values.length = s.u_values.length ∧
      ∀ i, s3.u_values[i]? =
        if c * NS ≤ i ∧ i < c * NS + NS then u_temp[i - c * NS]? else s.u_values[i]? := by
  have hloop := loopFrom_inv (copy_body NS u_temp)
    (fun k s1 => s1.save_it = (c : Int) ∧ s1.u.length = NS ∧
      (∀ i, s1.u[i]? = if i < k then u_temp[i]? else s.u[i]?) ∧
      s1.u_values.length = s.u_values.length ∧
      ∀ i, s1.u_values[i]? =
        if c * NS ≤ i ∧ i < c * NS + k then u_temp[i - c * NS]? else s.u_values[i]?)
    NS 0 s ⟨hc, hu, by simp, rfl, fun i => by rw [if_neg]; omega⟩ ?_
  · obtain ⟨s3, h3, h3c, h3l, h3u, h3vl, h3v⟩ := hloop
    refine ⟨s3, ?_, h3c, ?_, h3vl, h3v⟩
    · simpa [forLt] using h3
    · apply List.ext_getElem?
      intro i
      rw [h3u i]
      split
      · rfl
      · rw [List.getElem?_eq_none (by omega), List.getElem?_eq_none (by omega)]
  · intro k s1 hk ⟨h1c, h1l, h1u, h1vl, h1v⟩
    have hmul : c * NS + NS = (c + 1) * NS := by ring
    have hx : u_temp[k]? = some (u_temp[k]) := List.getElem?_eq_getElem (by omega)
    have hr := rd_ok Buf.u_temp u_temp (0 + (k : Int)) k _ (by simp) hx
    have hw1 := wr_ok Buf.u_values s1.u_values (s1.save_it * (NS : Int) + (0 + (k : Int)))
      (c * NS + k) (u_temp[k]) (by rw [h1c]; push_cast; ring) (by omega)
    have hw2 := wr_ok Buf.u s1.u (0 + (k : Int)) k (u_temp[k]) (by simp) (by omega)
    simp only [zero_add] at hr hw1 hw2 ⊢
    refine ⟨{ s1 with u := s1.u.set k (u_temp[k]),
                      u_values := s1.u_values.set (c * NS + k) (u_temp[k]) }, ?_, ?_⟩
    · simp [copy_body, hr, hw1, hw2, bind, Except.bind, pure, Except.pure]
    · refine ⟨h1c, by simpa using h1l, ?_, by simpa using h1vl, ?_⟩
      · intro i
        simp only [List.getElem?_set, h1u i]
        by_cases hik : k = i
        · subst hik
          simp [h1l, hk, hx]
        · simp only [hik, if_false]
          by_cases hlt : i < k
          · simp [hlt, Nat.lt_succ_of_lt hlt]
          · have : ¬ i < k + 1 := by omega
            simp [hlt, this]
      · intro i
        simp only [List.getElem?_set, h1v i]
        by_cases hik : c * NS + k = i
        · subst hik
          have hlen : c * NS + k < s1.u_values.length := by omega
          simp [hlen, hx]
        · simp only [hik, if_false]
          by_cases hin : c * NS ≤ i ∧ i < c * NS + k
          · have : c * NS ≤ i ∧ i < c * NS + (k + 1) := ⟨hin.1, by omega⟩
            simp [hin, this]
          · have : ¬ (c * NS ≤ i ∧ i < c * NS + (k + 1)) := by omega
            simp [hin, this]

/-! ## The outer loop of the drivers -/

theorem div_mod_of_window (w k i : Nat) (h1 : k * w ≤ i) (h2 : i < k * w + w) :
    i / w = k ∧ i % w = i - k * w := by
  have hdiv : i / w = k := by
    apply Nat.div_eq_of_lt_le
    · exact h1
    · have : (k + 1) * w = k * w + w := by ring
      omega
  refine ⟨hdiv, ?_⟩
  have h3 := Nat.div_add_mod i w
  rw [hdiv] at h3
  have h4 : w * k = k * w := by ring
  omega

theorem stepped_length {α : Type} (step : List α → α → α → List α → List α) (NS : Nat)
    (parameters t_values : List α) (dt : α) (u : List α)
    (hstep : ∀ v t, v.length = NS → (step v t dt parameters).length = NS)
    (hu : u.length = NS) (k : Nat) :
    (stepped step parameters t_values dt u k).length = NS := by
  induction k with
  | zero => exact hu
  | succ k ih =>
    simp only [stepped]
    split
    · exact hstep _ _ ih
    · exact ih

theorem euler_body_eq {α : Type} (M : Model α) (parameters t_values : List α) (dt : α) :
    euler_body M parameters t_values dt
      = step_body M.forward_explicit_euler M.NUM_STATES parameters t_values dt := rfl

theorem rush_larsen_body_eq {α : Type} (M : Model α) (parameters t_values : List α) (dt : α) :
    rush_larsen_body M parameters t_values dt
      = step_body M.forward_generalized_rush_larsen M.NUM_STATES parameters t_values dt := rfl

/-- The state of a driver after `n` iterations of its outer loop. -/
theorem driver_loop_spec {α : Type} (step : List α → α → α → List α → List α) (NS : Nat)
    (parameters t_values : List α) (dt : α) (u u_values : List α) (n : Nat)
    (hstep : ∀ v t, v.length = NS → (step v t dt parameters).length = NS)
    (hu : u.length = NS)
    (ht : n ≤ t_values.length) (huv : (n + 1) * NS ≤ u_values.length) :
    ∃ s3, loopFrom (step_body step NS parameters t_values dt) n 1
        { save_it := 1, u := u, u_values := u_values } = .ok s3 ∧
      s3.save_it = ((n + 1 : Nat) : Int) ∧
      s3.u = stepped step parameters t_values dt u n ∧
      s3.u_values.length = u_values.length ∧
      ∀ i, s3.u_values[i]? =
        if NS ≤ i ∧ i < (n + 1) * NS then
          (stepped step parameters t_values dt u (i / NS))[i % NS]?
        else u_values[i]? := by
  apply loopFrom_inv (step_body step NS parameters t_values dt)
    (fun k s1 => s1.save_it = ((k + 1 : Nat) : Int) ∧
      s1.u = stepped step parameters t_values dt u k ∧
      s1.u_values.length = u_values.length ∧
      ∀ i, s1.u_values[i]? =
        if NS ≤ i ∧ i < (k + 1) * NS then
          (stepped step parameters t_values dt u (i / NS))[i % NS]?
        else u_values[i]?)
    n 1 _ ⟨by simp, rfl, rfl, fun i => by rw [if_neg]; omega⟩
  intro k s1 hk ⟨h1c, h1u, h1vl, h1v⟩
  have hkt : k < t_values.length := by omega
  have hx : t_values[k]? = some (t_values[k]) := List.getElem?_eq_getElem hkt
  have hr := rd_ok Buf.t_values t_values (1 + (k : Int) - 1) k _ (by ring) hx
  have hidx : (1 : Int) + (k : Int) - 1 = (k : Int) := by ring
  rw [hidx] at hr
  have hnext : stepped step parameters t_values dt u (k + 1)
      = step s1.u (t_values[k]) dt parameters := by
    simp only [stepped, hx, h1u]
  have hmono : (k + 1 + 1) * NS ≤ (n + 1) * NS := Nat.mul_le_mul_right NS (by omega)
  have hsum : (k + 1 + 1) * NS = (k + 1) * NS + NS := by ring
  have h1l : s1.u.length = NS := by
    rw [h1u]; exact stepped_length step NS parameters t_values dt u hstep hu k
  obtain ⟨s2, h2, h2c, h2u, h2vl, h2v⟩ := copy_loop_spec NS
    (step s1.u (t_values[k]) dt parameters) s1 (k + 1) h1c (hstep _ _ h1l) h1l (by omega)
  refine ⟨{ s2 with save_it := s2.save_it + 1 }, ?_, ?_, ?_, ?_, ?_⟩
  · simp [step_body, hr, h2, bind, Except.bind, pure, Except.pure]
  · simp [h2c]
  · simp [h2u, hnext]
  · simpa [h1vl] using h2vl
  · intro i
    simp only [h2v i, h1v i]
    by_cases hwin : (k + 1) * NS ≤ i ∧ i < (k + 1) * NS + NS
    · obtain ⟨hd, hm⟩ := div_mod_of_window NS (k + 1) i hwin.1 hwin.2
      have hin : NS ≤ i ∧ i < (k + 1 + 1) * NS := by
        refine ⟨?_, by omega⟩
        have : NS ≤ (k + 1) * NS := Nat.le_mul_of_pos_left NS (Nat.succ_pos k)
        omega
      rw [if_pos hwin, if_pos hin, hd, hm, hnext]
    · rw [if_neg hwin]
      by_cases hold : NS ≤ i ∧ i < (k + 1) * NS
      · have hin : NS ≤ i ∧ i < (k + 1 + 1) * NS := ⟨hold.1, by omega⟩
        rw [if_pos hold, if_pos hin]
      · have hin : ¬ (NS ≤ i ∧ i < (k + 1 + 1) * NS) := by omega
        rw [if_neg hold, if_neg hin]

theorem getElem?_row {α : Type} (w : Nat) (buf : List α) (k j : Nat) :
    (row w buf k)[j]? = if j < w then buf[k * w + j]? else none := by
  simp [row, List.getElem?_take, List.getElem?_drop]

theorem mul_add_div_mod (w k j : Nat) (hj : j < w) :
    (k * w + j) / w = k ∧ (k * w + j) % w = j := by
  have hw : 0 < w := by omega
  constructor
  · rw [Nat.add_comm, Nat.add_mul_div_right _ _ hw, Nat.div_eq_of_lt hj, Nat.zero_add]
  · rw [Nat.add_comm, Nat.add_mul_mod_self_right, Nat.mod_eq_of_lt hj]

/-- Reading row `k` back from a buffer that holds lists `f k` of `w` entries at rows
`1 .. n` gives `f k`. -/
theorem row_of_pointwise {α : Type} (w n : Nat) (f : Nat → List α) (old new : List α)
    (hf : ∀ k, (f k).length = w)
    (hv : ∀ i, new[i]? = if w ≤ i ∧ i < (n + 1) * w then (f (i / w))[i % w]? else old[i]?)
    (k : Nat) (h1 : 1 ≤ k) (hk : k ≤ n) : row w new k = f k := by
  apply List.ext_getElem?
  intro j
  rw [getElem?_row]
  by_cases hj : j < w
  · obtain ⟨hd, hm⟩ := mul_add_div_mod w k j hj
    have hlo : w ≤ k * w := Nat.le_mul_of_pos_left w h1
    have hhi : (k + 1) * w ≤ (n + 1) * w := Nat.mul_le_mul_right w (by omega)
    have hsum : (k + 1) * w = k * w + w := by ring
    rw [if_pos hj, hv, if_pos ⟨by omega, by omega⟩, hd, hm]
  · rw [if_neg hj, List.getElem?_eq_none (by rw [hf]; omega)]

/-- Row 0 of the trajectory buffer is not touched when rows `1 .. n` are written. -/
theorem row_zero_of_pointwise {α : Type} (w n : Nat) (f : Nat → List α) (old new : List α)
    (hv : ∀ i, new[i]? = if w ≤ i ∧ i < (n + 1) * w then (f (i / w))[i % w]? else old[i]?) :
    row w new 0 = row w old 0 := by
  apply List.ext_getElem?
  intro j
  rw [getElem?_row, getElem?_row]
  by_cases hj : j < w
  · rw [if_pos hj, if_pos hj, hv, if_neg (by omega)]
  · rw [if_neg hj, if_neg hj]

theorem forward_euler_unfold {α : Type} (M : Model α) (u parameters u_values t_values : List α)
    (num_timesteps : Int) (dt : α) :
    ode_solve_forward_euler M u parameters u_values t_values num_timesteps dt
      = (match loopFrom (step_body M.forward_explicit_euler M.NUM_STATES parameters t_values dt)
            num_timesteps.toNat 1 { save_it := 1, u := u, u_values := u_values } with
         | .ok s => .ok (s.u, s.u_values)
         | .error e => .error e) := by
  have e : (num_timesteps + 1 - 1).toNat = num_timesteps.toNat := by
    congr 1
    ring
  simp only [ode_solve_forward_euler, forLe, e, euler_body_eq, bind, Except.bind, pure,
    Except.pure]
  cases loopFrom (step_body M.forward_explicit_euler M.NUM_STATES parameters t_values dt)
    num_timesteps.toNat 1 { save_it := 1, u := u, u_values := u_values } <;> rfl

theorem rush_larsen_unfold {α : Type} (M : Model α) (u parameters u_values t_values : List α)
    (num_timesteps : Int) (dt : α) :
    ode_solve_rush_larsen M u parameters u_values t_values num_timesteps dt
      = (match loopFrom
            (step_body M.forward_generalized_rush_larsen M.NUM_STATES parameters t_values dt)
            num_timesteps.toNat 1 { save_it := 1, u := u, u_values := u_values } with
         | .ok s => .ok (s.u, s.u_values)
         | .error e => .error e) := by
  have e : (num_timesteps + 1 - 1).toNat = num_timesteps.toNat := by
    congr 1
    ring
  simp only [ode_solve_rush_larsen, forLe, e, rush_larsen_body_eq, bind, Except.bind, pure,
    Except.pure]
  cases loopFrom
    (step_body M.forward_generalized_rush_larsen M.NUM_STATES parameters t_values dt)
    num_timesteps.toNat 1 { save_it := 1, u := u, u_values := u_values } <;> rfl

theorem stepped_succ {α : Type} (step : List α → α → α → List α → List α)
    (parameters t_values : List α) (dt : α) (u : List α) (k : Nat) (t : α)
    (ht : t_values[k]? = some t) :
    stepped step parameters t_values dt u (k + 1)
      = step (stepped step parameters t_values dt u k) t dt parameters := by
  simp only [stepped, ht]

/-- The stepped states depend on the grid only through the entries that the steps read. -/
theorem stepped_congr {α : Type} (step : List α → α → α → List α → List α)
    (parameters t1 t2 : List α) (dt : α) (u : List α) (k : Nat)
    (h : ∀ j, j < k → t1[j]? = t2[j]?) :
    stepped step parameters t1 dt u k = stepped step parameters t2 dt u k := by
  induction k with
  | zero => rfl
  | succ k ih =>
    have ih1 := ih (fun j hj => h j (Nat.lt_succ_of_lt hj))
    simp only [stepped, h k (Nat.lt_succ_self k), ih1]

/-- Rows of the trajectory buffer after `n` iterations of a driver loop. -/
theorem driver_loop_rows {α : Type} (step : List α → α → α → List α → List α) (NS : Nat)
    (parameters t_values : List α) (dt : α) (u u_values : List α) (n : Nat)
    (hstep : ∀ v t, v.length = NS → (step v t dt parameters).length = NS)
    (hu : u.length = NS)
    (ht : n ≤ t_values.length) (huv : (n + 1) * NS ≤ u_values.length) :
    ∃ s3, loopFrom (step_body step NS parameters t_values dt) n 1
        { save_it := 1, u := u, u_values := u_values } = .ok s3 ∧
      s3.save_it = ((n + 1 : Nat) : Int) ∧
      s3.u = stepped step parameters t_values dt u n ∧
      s3.u_values.length = u_values.length ∧
      row NS s3.u_values 0 = row NS u_values 0 ∧
      (∀ k, 1 ≤ k → k ≤ n → row NS s3.u_values k = stepped step parameters t_values dt u k) ∧
      (∀ i, (n + 1) * NS ≤ i → s3.u_values[i]? = u_values[i]?) := by
  obtain ⟨s3, h3, h3c, h3u, h3l, h3v⟩ := driver_loop_spec step NS parameters t_values dt u
    u_values n hstep hu ht huv
  refine ⟨s3, h3, h3c, h3u, h3l, ?_, ?_, ?_⟩
  · exact row_zero_of_pointwise NS n _ u_values s3.u_values h3v
  · intro k h1 hk
    exact row_of_pointwise NS n _ u_values s3.u_values
      (stepped_length step NS parameters t_values dt u hstep hu) h3v k h1 hk
  · intro i hi
    rw [h3v i, if_neg (by omega)]

theorem toyModel_wellSized : toyModel.WellSized :=
  ⟨fun _ _ _ _ _ => rfl, fun _ _ _ _ _ => rfl, fun _ _ _ _ => rfl⟩

/-! ## Trajectory drivers: rows of the trajectory -/

/-- Row `k` of the trajectory after a driver loop is the step applied to the state after
`k - 1` steps, at the grid time of index `k - 1`. -/
theorem driver_rows_step {α : Type} (step : List α → α → α → List α → List α) (NS : Nat)
    (parameters t_values : List α) (dt : α) (u u_values : List α) (n : Nat)
    (hstep : ∀ v t, v.length = NS → (step v t dt parameters).length = NS)
    (hu : u.length = NS)
    (ht : n ≤ t_values.length) (huv : (n + 1) * NS ≤ u_values.length) :
    ∃ s3, loopFrom (step_body step NS parameters t_values dt) n 1
        { save_it := 1, u := u, u_values := u_values } = .ok s3 ∧
      ∀ k, 1 ≤ k → k ≤ n → ∃ t, t_values[k - 1]? = some t ∧
        row NS s3.u_values k
          = step (stepped step parameters t_values dt u (k - 1)) t dt parameters ∧
        row NS s3.u_values k = stepped step parameters t_values dt u k := by
  obtain ⟨s3, h3, -, -, -, -, h3r, -⟩ := driver_loop_rows step NS parameters t_values dt u
    u_values n hstep hu ht huv
  refine ⟨s3, h3, ?_⟩
  intro k h1 hk
  have hkt : k - 1 < t_values.length := by omega
  refine ⟨t_values[k - 1], List.getElem?_eq_getElem hkt, ?_, h3r k h1 hk⟩
  rw [h3r k h1 hk]
  have hk1 : k = (k - 1) + 1 := by omega
  conv_lhs => rw [hk1]
  exact stepped_succ step parameters t_values dt u (k - 1) _ (List.getElem?_eq_getElem hkt)

/-- C1: for both drivers, every row `k` with `1 ≤ k ≤ n` of the trajectory buffer after the
call equals the model step applied to the state after `k - 1` steps (`stepped .. (k - 1)`,
which is `u` for `k = 1`), the time `t_values[k - 1]`, `dt` and the parameters; so row `k` is
the `k`-fold sequential application of the step to the initial `u`. -/
theorem C1_rows_are_sequential_steps {α : Type} (M : Model α) (hM : M.WellSized)
    (u parameters u_values t_values : List α) (n : Nat) (dt : α)
    (hu : u.length = M.NUM_STATES) (ht : n ≤ t_values.length)
    (huv : (n + 1) * M.NUM_STATES ≤ u_values.length) :
    (∃ u1 uv1, ode_solve_forward_euler M u parameters u_values t_values (n : Int) dt
        = .ok (u1, uv1) ∧
      ∀ k, 1 ≤ k → k ≤ n → ∃ t, t_values[k - 1]? = some t ∧
        row M.NUM_STATES uv1 k
          = M.forward_explicit_euler
              (stepped M.forward_explicit_euler parameters t_values dt u (k - 1))
              t dt parameters ∧
        row M.NUM_STATES uv1 k = stepped M.forward_explicit_euler parameters t_values dt u k) ∧
    (∃ u1 uv1, ode_solve_rush_larsen M u parameters u_values t_values (n : Int) dt
        = .ok (u1, uv1) ∧
      ∀ k, 1 ≤ k → k ≤ n → ∃ t, t_values[k - 1]? = some t ∧
        row M.NUM_STATES uv1 k
          = M.forward_generalized_rush_larsen
              (stepped M.forward_generalized_rush_larsen parameters t_values dt u (k - 1))
              t dt parameters ∧
        row M.NUM_STATES uv1 k
          = stepped M.forward_generalized_rush_larsen parameters t_values dt u k) := by
  constructor
  · obtain ⟨s3, h3, hrows⟩ := driver_rows_step M.forward_explicit_euler M.NUM_STATES
      parameters t_values dt u u_values n (fun v t hv => hM.1 v t dt parameters hv) hu ht huv
    refine ⟨s3.u, s3.u_values, ?_, hrows⟩
    rw [forward_euler_unfold, Int.toNat_ofNat, h3]
  · obtain ⟨s3, h3, hrows⟩ := driver_rows_step M.forward_generalized_rush_larsen M.NUM_STATES
      parameters t_values dt u u_values n (fun v t hv => hM.2.1 v t dt parameters hv) hu ht huv
    refine ⟨s3.u, s3.u_values, ?_, hrows⟩
    rw [rush_larsen_unfold, Int.toNat_ofNat, h3]

/-- C1 at the toy model, two steps from `[1, 2]`. -/
theorem C1_rows_are_sequential_steps_witness :
    toyModel.WellSized ∧ [(1 : Int), 2].length = toyModel.NUM_STATES ∧
    2 ≤ [(10 : Int), 20, 30].length ∧
    (2 + 1) * toyModel.NUM_STATES ≤ [(0 : Int), 0, 0, 0, 0, 0].length ∧
    ((∃ u1 uv1, ode_solve_forward_euler toyModel [1, 2] [3] [0, 0, 0, 0, 0, 0] [10, 20, 30]
        ((2 : Nat) : Int) 2 = .ok (u1, uv1) ∧
      ∀ k, 1 ≤ k → k ≤ 2 → ∃ t, [(10 : Int), 20, 30][k - 1]? = some t ∧
        row toyModel.NUM_STATES uv1 k
          = toyModel.forward_explicit_euler
              (stepped toyModel.forward_explicit_euler [3] [10, 20, 30] 2 [1, 2] (k - 1))
              t 2 [3] ∧
        row toyModel.NUM_STATES uv1 k
          = stepped toyModel.forward_explicit_euler [3] [10, 20, 30] 2 [1, 2] k) ∧
    (∃ u1 uv1, ode_solve_rush_larsen toyModel [1, 2] [3] [0, 0, 0, 0, 0, 0] [10, 20, 30]
        ((2 : Nat) : Int) 2 = .ok (u1, uv1) ∧
      ∀ k, 1 ≤ k → k ≤ 2 → ∃ t, [(10 : Int), 20, 30][k - 1]? = some t ∧
        row toyModel.NUM_STATES uv1 k
          = toyModel.forward_generalized_rush_larsen
              (stepped toyModel.forward_generalized_rush_larsen [3] [10, 20, 30] 2 [1, 2]
                (k - 1))
              t 2 [3] ∧
        row toyModel.NUM_STATES uv1 k
          = stepped toyModel.forward_generalized_rush_larsen [3] [10, 20, 30] 2 [1, 2] k)) :=
  ⟨toyModel_wellSized, by decide, by decide, by decide,
    C1_rows_are_sequential_steps toyModel toyModel_wellSized [1, 2] [3] [0, 0, 0, 0, 0, 0]
      [10, 20, 30] 2 2 (by decide) (by decide) (by decide)⟩

/-! ## Trajectory drivers: the current state -/

theorem driver_current_state {α : Type} (step : List α → α → α → List α → List α) (NS : Nat)
    (parameters t_values : List α) (dt : α) (u u_values : List α) (n : Nat)
    (hstep : ∀ v t, v.length = NS → (step v t dt parameters).length = NS)
    (hu : u.length = NS) (hn : 1 ≤ n)
    (ht : n ≤ t_values.length) (huv : (n + 1) * NS ≤ u_values.length) :
    ∃ s3, loopFrom (step_body step NS parameters t_values dt) n 1
        { save_it := 1, u := u, u_values := u_values } = .ok s3 ∧
      s3.save_it = ((n + 1 : Nat) : Int) ∧
      s3.u = row NS s3.u_values n ∧
      s3.u = stepped step parameters t_values dt u n ∧
      ∀ k, 1 ≤ k → k ≤ n →
        ∃ s1, loopFrom (step_body step NS parameters t_values dt) (k - 1) 1
            { save_it := 1, u := u, u_values := u_values } = .ok s1 ∧
          loopFrom (step_body step NS parameters t_values dt) (n - (k - 1)) (k : Int) s1
            = .ok s3 ∧
          s1.u = stepped step parameters t_values dt u (k - 1) ∧
          (k = 1 → s1.u = u) ∧
          (2 ≤ k → s1.u = row NS s1.u_values (k - 1) ∧ s1.u = row NS s3.u_values (k - 1)) := by
  obtain ⟨s3, h3, h3c, h3u, -, -, h3r, -⟩ := driver_loop_rows step NS parameters t_values dt u
    u_values n hstep hu ht huv
  refine ⟨s3, h3, h3c, ?_, h3u, ?_⟩
  · rw [h3r n hn (Nat.le_refl n), h3u]
  · intro k h1 hk
    have hmono : (k - 1 + 1) * NS ≤ (n + 1) * NS := Nat.mul_le_mul_right NS (by omega)
    obtain ⟨s1, h1run, -, h1u, -, -, h1r, -⟩ := driver_loop_rows step NS parameters t_values
      dt u u_values (k - 1) hstep hu (by omega) (by omega)
    refine ⟨s1, h1run, ?_, h1u, ?_, ?_⟩
    · have hsplit := loopFrom_add (step_body step NS parameters t_values dt) (k - 1)
        (n - (k - 1)) 1 { save_it := 1, u := u, u_values := u_values }
      have hsum : k - 1 + (n - (k - 1)) = n := by omega
      have hidx : (1 : Int) + ((k - 1 : Nat) : Int) = (k : Int) := by omega
      rw [hsum, h1run, h3, hidx] at hsplit
      exact hsplit.symm
    · intro hk1
      subst hk1
      exact h1u
    · intro hk2
      refine ⟨?_, ?_⟩
      · rw [h1r (k - 1) (by omega) (Nat.le_refl _), h1u]
      · rw [h3r (k - 1) (by omega) (by omega), h1u]

/-- C3: for both drivers and `n ≥ 1` steps, on return the caller's vector `u` holds the state
after the `n`-th step, which is row `n` of the trajectory buffer; and at the start of every
step `k` (after `k - 1` iterations of the loop, from where the remaining `n - (k - 1)`
iterations give the final result) the current state is the state committed by step `k - 1`:
the initial `u` for `k = 1`, row `k - 1` of the trajectory for `k ≥ 2`. -/
theorem C3_current_state_is_last_row {α : Type} (M : Model α) (hM : M.WellSized)
    (u parameters u_values t_values : List α) (n : Nat) (dt : α) (hn : 1 ≤ n)
    (hu : u.length = M.NUM_STATES) (ht : n ≤ t_values.length)
    (huv : (n + 1) * M.NUM_STATES ≤ u_values.length) :
    (∃ u1 uv1, ode_solve_forward_euler M u parameters u_values t_values (n : Int) dt
        = .ok (u1, uv1) ∧
      u1 = row M.NUM_STATES uv1 n ∧
      u1 = stepped M.forward_explicit_euler parameters t_values dt u n ∧
      ∀ k, 1 ≤ k → k ≤ n →
        ∃ s1, loopFrom (euler_body M parameters t_values dt) (k - 1) 1
            { save_it := 1, u := u, u_values := u_values } = .ok s1 ∧
          loopFrom (euler_body M parameters t_values dt) (n - (k - 1)) (k : Int) s1
            = .ok { save_it := ((n + 1 : Nat) : Int), u := u1, u_values := uv1 } ∧
          (k = 1 → s1.u = u) ∧
          (2 ≤ k → s1.u = row M.NUM_STATES s1.u_values (k - 1) ∧
            s1.u = row M.NUM_STATES uv1 (k - 1))) ∧
    (∃ u1 uv1, ode_solve_rush_larsen M u parameters u_values t_values (n : Int) dt
        = .ok (u1, uv1) ∧
      u1 = row M.NUM_STATES uv1 n ∧
      u1 = stepped M.forward_generalized_rush_larsen parameters t_values dt u n ∧
      ∀ k, 1 ≤ k → k ≤ n →
        ∃ s1, loopFrom (rush_larsen_body M parameters t_values dt) (k - 1) 1
            { save_it := 1, u := u, u_values := u_values } = .ok s1 ∧
          loopFrom (rush_larsen_body M parameters t_values dt) (n - (k - 1)) (k : Int) s1
            = .ok { save_it := ((n + 1 : Nat) : Int), u := u1, u_values := uv1 } ∧
          (k = 1 → s1.u = u) ∧
          (2 ≤ k → s1.u = row M.NUM_STATES s1.u_values (k - 1) ∧
            s1.u = row M.NUM_STATES uv1 (k - 1))) := by
  constructor
  · obtain ⟨s3, h3, h3c, h3row, h3u, hk⟩ := driver_current_state M.forward_explicit_euler
      M.NUM_STATES parameters t_values dt u u_values n
      (fun v t hv => hM.1 v t dt parameters hv) hu hn ht huv
    refine ⟨s3.u, s3.u_values, ?_, h3row, h3u, ?_⟩
    · rw [forward_euler_unfold, Int.toNat_ofNat, h3]
    · intro k h1 hkn
      obtain ⟨s1, ha, hb, -, hc, hd⟩ := hk k h1 hkn
      rw [euler_body_eq]
      refine ⟨s1, ha, ?_, hc, hd⟩
      rw [hb, ← h3c]
  · obtain ⟨s3, h3, h3c, h3row, h3u, hk⟩ := driver_current_state
      M.forward_generalized_rush_larsen M.NUM_STATES parameters t_values dt u u_values n
      (fun v t hv => hM.2.1 v t dt parameters hv) hu hn ht huv
    refine ⟨s3.u, s3.u_values, ?_, h3row, h3u, ?_⟩
    · rw [rush_larsen_unfold, Int.toNat_ofNat, h3]
    · intro k h1 hkn
      obtain ⟨s1, ha, hb, -, hc, hd⟩ := hk k h1 hkn
      rw [rush_larsen_body_eq]
      refine ⟨s1, ha, ?_, hc, hd⟩
      rw [hb, ← h3c]

/-- C3 at the toy model, two steps from `[1, 2]`. -/
theorem C3_current_state_is_last_row_witness :
    toyModel.WellSized ∧ 1 ≤ 2 ∧ [(1 : Int), 2].length = toyModel.NUM_STATES ∧
    2 ≤ [(10 : Int), 20, 30].length ∧
    (2 + 1) * toyModel.NUM_STATES ≤ [(7 : Int), 7, 7, 7, 7, 7].length ∧
    ((∃ u1 uv1, ode_solve_forward_euler toyModel [1, 2] [3] [7, 7, 7, 7, 7, 7] [10, 20, 30]
        ((2 : Nat) : Int) 2 = .ok (u1, uv1) ∧
      u1 = row toyModel.NUM_STATES uv1 2 ∧
      u1 = stepped toyModel.forward_explicit_euler [3] [10, 20, 30] 2 [1, 2] 2 ∧
      ∀ k, 1 ≤ k → k ≤ 2 →
        ∃ s1, loopFrom (euler_body toyModel [3] [10, 20, 30] 2) (k - 1) 1
            { save_it := 1, u := [1, 2], u_values := [7, 7, 7, 7, 7, 7] } = .ok s1 ∧
          loopFrom (euler_body toyModel [3] [10, 20, 30] 2) (2 - (k - 1)) (k : Int) s1
            = .ok { save_it := ((2 + 1 : Nat) : Int), u := u1, u_values := uv1 } ∧
          (k = 1 → s1.u = [1, 2]) ∧
          (2 ≤ k → s1.u = row toyModel.NUM_STATES s1.u_values (k - 1) ∧
            s1.u = row toyModel.NUM_STATES uv1 (k - 1))) ∧
    (∃ u1 uv1, ode_solve_rush_larsen toyModel [1, 2] [3] [7, 7, 7, 7, 7, 7] [10, 20, 30]
        ((2 : Nat) : Int) 2 = .ok (u1, uv1) ∧
      u1 = row toyModel.NUM_STATES uv1 2 ∧
      u1 = stepped toyModel.forward_generalized_rush_larsen [3] [10, 20, 30] 2 [1, 2] 2 ∧
      ∀ k, 1 ≤ k → k ≤ 2 →
        ∃ s1, loopFrom (rush_larsen_body toyModel [3] [10, 20, 30] 2) (k - 1) 1
            { save_it := 1, u := [1, 2], u_values := [7, 7, 7, 7, 7, 7] } = .ok s1 ∧
          loopFrom (rush_larsen_body toyModel [3] [10, 20, 30] 2) (2 - (k - 1)) (k : Int) s1
            = .ok { save_it := ((2 + 1 : Nat) : Int), u := u1, u_values := uv1 } ∧
          (k = 1 → s1.u = [1, 2]) ∧
          (2 ≤ k → s1.u = row toyModel.NUM_STATES s1.u_values (k - 1) ∧
            s1.u = row toyModel.NUM_STATES uv1 (k - 1)))) :=
  ⟨toyModel_wellSized, by decide, by decide, by decide, by decide,
    C3_current_state_is_last_row toyModel toyModel_wellSized [1, 2] [3] [7, 7, 7, 7, 7, 7]
      [10, 20, 30] 2 2 (by decide) (by decide) (by decide) (by decide)⟩

/-! ## Trajectory drivers: sample 0 -/

/-- C4 as stated fails: with a trajectory buffer that the caller did not seed, row 0 after
either driver is the prior content, not the initial state; with one step and with zero steps. -/
theorem C4_row_zero_counterexample :
    ode_solve_forward_euler toyModel [1, 2] [3] [0, 0, 0, 0] [10, 20] 1 2
      = .ok ([5, 15], [0, 0, 5, 15]) ∧
    ode_solve_rush_larsen toyModel [1, 2] [3] [0, 0, 0, 0] [10, 20] 1 2
      = .ok ([5, 17], [0, 0, 5, 17]) ∧
    ode_solve_forward_euler toyModel [1, 2] [3] [0, 0, 0, 0] [10, 20] 0 2
      = .ok ([1, 2], [0, 0, 0, 0]) ∧
    ode_solve_rush_larsen toyModel [1, 2] [3] [0, 0, 0, 0] [10, 20] 0 2
      = .ok ([1, 2], [0, 0, 0, 0]) ∧
    row toyModel.NUM_STATES [(0 : Int), 0, 5, 15] 0 ≠ [1, 2] ∧
    row toyModel.NUM_STATES [(0 : Int), 0, 5, 17] 0 ≠ [1, 2] ∧
    row toyModel.NUM_STATES [(0 : Int), 0, 0, 0] 0 ≠ [1, 2] := by
  decide

/-- C4, amended: for every `num_timesteps` (zero and negative included) both drivers return
with row 0 of the trajectory buffer equal to row 0 of its prior content; so row 0 equals the
supplied initial state exactly when the caller had seeded it with that state. -/
theorem C4_row_zero_is_prior_content {α : Type} (M : Model α) (hM : M.WellSized)
    (u parameters u_values t_values : List α) (num_timesteps : Int) (dt : α)
    (hu : u.length = M.NUM_STATES) (ht : num_timesteps.toNat ≤ t_values.length)
    (huv : (num_timesteps.toNat + 1) * M.NUM_STATES ≤ u_values.length) :
    (∃ u1 uv1, ode_solve_forward_euler M u parameters u_values t_values num_timesteps dt
        = .ok (u1, uv1) ∧
      row M.NUM_STATES uv1 0 = row M.NUM_STATES u_values 0 ∧
      (row M.NUM_STATES uv1 0 = u ↔ row M.NUM_STATES u_values 0 = u)) ∧
    (∃ u1 uv1, ode_solve_rush_larsen M u parameters u_values t_values num_timesteps dt
        = .ok (u1, uv1) ∧
      row M.NUM_STATES uv1 0 = row M.NUM_STATES u_values 0 ∧
      (row M.NUM_STATES uv1 0 = u ↔ row M.NUM_STATES u_values 0 = u)) := by
  constructor
  · obtain ⟨s3, h3, -, -, -, h3z, -, -⟩ := driver_loop_rows M.forward_explicit_euler
      M.NUM_STATES parameters t_values dt u u_values num_timesteps.toNat
      (fun v t hv => hM.1 v t dt parameters hv) hu ht huv
    refine ⟨s3.u, s3.u_values, ?_, h3z, by rw [h3z]⟩
    rw [forward_euler_unfold, h3]
  · obtain ⟨s3, h3, -, -, -, h3z, -, -⟩ := driver_loop_rows M.forward_generalized_rush_larsen
      M.NUM_STATES parameters t_values dt u u_values num_timesteps.toNat
      (fun v t hv => hM.2.1 v t dt parameters hv) hu ht huv
    refine ⟨s3.u, s3.u_values, ?_, h3z, by rw [h3z]⟩
    rw [rush_larsen_unfold, h3]

/-- C4 amended, at the toy model with a seeded buffer and one step. -/
theorem C4_row_zero_is_prior_content_witness :
    toyModel.WellSized ∧ [(1 : Int), 2].length = toyModel.NUM_STATES ∧
    (1 : Int).toNat ≤ [(10 : Int), 20].length ∧
    ((1 : Int).toNat + 1) * toyModel.NUM_STATES ≤ [(1 : Int), 2, 0, 0].length ∧
    ((∃ u1 uv1, ode_solve_forward_euler toyModel [1, 2] [3] [1, 2, 0, 0] [10, 20] 1 2
        = .ok (u1, uv1) ∧
      row toyModel.NUM_STATES uv1 0 = row toyModel.NUM_STATES [1, 2, 0, 0] 0 ∧
      (row toyModel.NUM_STATES uv1 0 = [1, 2] ↔
        row toyModel.NUM_STATES [(1 : Int), 2, 0, 0] 0 = [1, 2])) ∧
    (∃ u1 uv1, ode_solve_rush_larsen toyModel [1, 2] [3] [1, 2, 0, 0] [10, 20] 1 2
        = .ok (u1, uv1) ∧
      row toyModel.NUM_STATES uv1 0 = row toyModel.NUM_STATES [1, 2, 0, 0] 0 ∧
      (row toyModel.NUM_STATES uv1 0 = [1, 2] ↔
        row toyModel.NUM_STATES [(1 : Int), 2, 0, 0] 0 = [1, 2]))) :=
  ⟨toyModel_wellSized, by decide, by decide, by decide,
    C4_row_zero_is_prior_content toyModel toyModel_wellSized [1, 2] [3] [1, 2, 0, 0] [10, 20]
      1 2 (by decide) (by decide) (by decide)⟩

/-! ## Trajectory drivers: determinism -/

/-- C9: two runs of the same driver with the same initial state, parameters, `dt`, step
count `n` and grid entries `0 .. n - 1` both return, with the same final current state and the
same rows `1 .. n` of the trajectory, whatever the two trajectory buffers held before and
whatever the grids hold from index `n` on. -/
theorem C9_driver_deterministic {α : Type} (M : Model α) (hM : M.WellSized)
    (u parameters uvA uvB tA tB : List α) (n : Nat) (dt : α)
    (hu : u.length = M.NUM_STATES) (htA : n ≤ tA.length) (htB : n ≤ tB.length)
    (hgrid : ∀ j, j < n → tA[j]? = tB[j]?)
    (huvA : (n + 1) * M.NUM_STATES ≤ uvA.length)
    (huvB : (n + 1) * M.NUM_STATES ≤ uvB.length) :
    (∃ u1 uvA1 uvB1,
      ode_solve_forward_euler M u parameters uvA tA (n : Int) dt = .ok (u1, uvA1) ∧
      ode_solve_forward_euler M u parameters uvB tB (n : Int) dt = .ok (u1, uvB1) ∧
      ∀ k, 1 ≤ k → k ≤ n → row M.NUM_STATES uvA1 k = row M.NUM_STATES uvB1 k) ∧
    (∃ u1 uvA1 uvB1,
      ode_solve_rush_larsen M u parameters uvA tA (n : Int) dt = .ok (u1, uvA1) ∧
      ode_solve_rush_larsen M u parameters uvB tB (n : Int) dt = .ok (u1, uvB1) ∧
      ∀ k, 1 ≤ k → k ≤ n → row M.NUM_STATES uvA1 k = row M.NUM_STATES uvB1 k) := by
  constructor
  · obtain ⟨sA, hA, -, hAu, -, -, hAr, -⟩ := driver_loop_rows M.forward_explicit_euler
      M.NUM_STATES parameters tA dt u uvA n (fun v t hv => hM.1 v t dt parameters hv) hu htA
      huvA
    obtain ⟨sB, hB, -, hBu, -, -, hBr, -⟩ := driver_loop_rows M.forward_explicit_euler
      M.NUM_STATES parameters tB dt u uvB n (fun v t hv => hM.1 v t dt parameters hv) hu htB
      huvB
    have hsame : sB.u = sA.u := by
      rw [hAu, hBu]
      exact (stepped_congr _ parameters tA tB dt u n hgrid).symm
    refine ⟨sA.u, sA.u_values, sB.u_values, ?_, ?_, ?_⟩
    · rw [forward_euler_unfold, Int.toNat_ofNat, hA]
    · rw [forward_euler_unfold, Int.toNat_ofNat, hB, ← hsame]
    · intro k h1 hk
      rw [hAr k h1 hk, hBr k h1 hk]
      exact stepped_congr _ parameters tA tB dt u k (fun j hj => hgrid j (by omega))
  · obtain ⟨sA, hA, -, hAu, -, -, hAr, -⟩ := driver_loop_rows
      M.forward_generalized_rush_larsen M.NUM_STATES parameters tA dt u uvA n
      (fun v t hv => hM.2.1 v t dt parameters hv) hu htA huvA
    obtain ⟨sB, hB, -, hBu, -, -, hBr, -⟩ := driver_loop_rows
      M.forward_generalized_rush_larsen M.NUM_STATES parameters tB dt u uvB n
      (fun v t hv => hM.2.1 v t dt parameters hv) hu htB huvB
    have hsame : sB.u = sA.u := by
      rw [hAu, hBu]
      exact (stepped_congr _ parameters tA tB dt u n hgrid).symm
    refine ⟨sA.u, sA.u_values, sB.u_values, ?_, ?_, ?_⟩
    · rw [rush_larsen_unfold, Int.toNat_ofNat, hA]
    · rw [rush_larsen_unfold, Int.toNat_ofNat, hB, ← hsame]
    · intro k h1 hk
      rw [hAr k h1 hk, hBr k h1 hk]
      exact stepped_congr _ parameters tA tB dt u k (fun j hj => hgrid j (by omega))

/-- C9 at the toy model: two runs of two steps over buffers with different prior contents
and grids that differ in the last entry. -/
theorem C9_driver_deterministic_witness :
    toyModel.WellSized ∧ [(1 : Int), 2].length = toyModel.NUM_STATES ∧
    2 ≤ [(10 : Int), 20, 30].length ∧ 2 ≤ [(10 : Int), 20, 99].length ∧
    (∀ j, j < 2 → [(10 : Int), 20, 30][j]? = [(10 : Int), 20, 99][j]?) ∧
    (2 + 1) * toyModel.NUM_STATES ≤ [(0 : Int), 0, 0, 0, 0, 0].length ∧
    (2 + 1) * toyModel.NUM_STATES ≤ [(1 : Int), 2, 8, 8, 8, 8, 8].length ∧
    ((∃ u1 uvA1 uvB1,
      ode_solve_forward_euler toyModel [1, 2] [3] [0, 0, 0, 0, 0, 0] [10, 20, 30]
        ((2 : Nat) : Int) 2 = .ok (u1, uvA1) ∧
      ode_solve_forward_euler toyModel [1, 2] [3] [1, 2, 8, 8, 8, 8, 8] [10, 20, 99]
        ((2 : Nat) : Int) 2 = .ok (u1, uvB1) ∧
      ∀ k, 1 ≤ k → k ≤ 2 →
        row toyModel.NUM_STATES uvA1 k = row toyModel.NUM_STATES uvB1 k) ∧
    (∃ u1 uvA1 uvB1,
      ode_solve_rush_larsen toyModel [1, 2] [3] [0, 0, 0, 0, 0, 0] [10, 20, 30]
        ((2 : Nat) : Int) 2 = .ok (u1, uvA1) ∧
      ode_solve_rush_larsen toyModel [1, 2] [3] [1, 2, 8, 8, 8, 8, 8] [10, 20, 99]
        ((2 : Nat) : Int) 2 = .ok (u1, uvB1) ∧
      ∀ k, 1 ≤ k → k ≤ 2 →
        row toyModel.NUM_STATES uvA1 k = row toyModel.NUM_STATES uvB1 k)) :=
  ⟨toyModel_wellSized, by decide, by decide, by decide, by decide, by decide, by decide,
    C9_driver_deterministic toyModel toyModel_wellSized [1, 2] [3] [0, 0, 0, 0, 0, 0]
      [1, 2, 8, 8, 8, 8, 8] [10, 20, 30] [10, 20, 99] 2 2 (by decide) (by decide) (by decide)
      (by decide) (by decide) (by decide)⟩

/-! ## The monitor sampler -/

/-- The first inner loop of the sampler loads row `i` of the trajectory into `u`. -/
theorem load_loop_spec {α : Type} (NS : Nat) (states u : List α) (i : Nat)
    (hu : u.length = NS) (hs : (i + 1) * NS ≤ states.length) :
    forLt 0 NS (load_body NS states (i : Int)) u = .ok (row NS states i) := by
  have hsum : (i + 1) * NS = i * NS + NS := by ring
  have hloop := loopFrom_inv (load_body NS states (i : Int))
    (fun k u1 => u1.length = NS ∧
      ∀ j, u1[j]? = if j < k then states[i * NS + j]? else u[j]?)
    NS 0 u ⟨hu, by simp⟩ ?_
  · obtain ⟨u3, h3, h3l, h3v⟩ := hloop
    have hrow : u3 = row NS states i := by
      apply List.ext_getElem?
      intro j
      rw [h3v j, getElem?_row]
      split
      · rfl
      · exact List.getElem?_eq_none (by omega)
    rw [← hrow]
    simpa [forLt] using h3
  · intro k u1 hk ⟨h1l, h1v⟩
    have hx : states[i * NS + k]? = some (states[i * NS + k]) :=
      List.getElem?_eq_getElem (by omega)
    have hr := rd_ok Buf.states states ((i : Int) * (NS : Int) + (0 + (k : Int)))
      (i * NS + k) _ (by push_cast; ring) hx
    have hw := wr_ok Buf.u u1 (0 + (k : Int)) k (states[i * NS + k]) (by simp) (by omega)
    refine ⟨u1.set k (states[i * NS + k]), ?_, ?_⟩
    · simp only [load_body, hr, hw, bind, Except.bind]
    · refine ⟨by simpa using h1l, ?_⟩
      intro j
      simp only [List.getElem?_set, h1v j]
      by_cases hjk : k = j
      · subst hjk
        simp [h1l, hk, hx]
      · simp only [hjk, if_false]
        by_cases hlt : j < k
        · simp [hlt, Nat.lt_succ_of_lt hlt]
        · have : ¬ j < k + 1 := by omega
          simp [hlt, this]

/-- The second inner loop of the sampler writes the selected entries of `m_temp` to row `i`
of the output. -/
theorem select_loop_spec {α : Type} (m_temp : List α) (indices : List Int) (num i : Nat)
    (monitored : List α) (hm : (i + 1) * num ≤ monitored.length)
    (hgood : ∀ j, j < num → ∃ ix, indices[j]? = some ix ∧ 0 ≤ ix ∧ ix.toNat < m_temp.length) :
    ∃ m3, forLt 0 num (select_body m_temp indices (num : Int) (i : Int)) monitored = .ok m3 ∧
      m3.length = monitored.length ∧
      ∀ q, m3[q]? =
        if i * num ≤ q ∧ q < i * num + num then pick m_temp indices (q - i * num)
        else monitored[q]? := by
  have hsum : (i + 1) * num = i * num + num := by ring
  have hloop := loopFrom_inv (select_body m_temp indices (num : Int) (i : Int))
    (fun k m1 => m1.length = monitored.length ∧
      ∀ q, m1[q]? =
        if i * num ≤ q ∧ q < i * num + k then pick m_temp indices (q - i * num)
        else monitored[q]?)
    num 0 monitored ⟨rfl, fun q => by rw [if_neg]; omega⟩ ?_
  · obtain ⟨m3, h3, h3l, h3v⟩ := hloop
    exact ⟨m3, by simpa [forLt] using h3, h3l, h3v⟩
  · intro k m1 hk ⟨h1l, h1v⟩
    obtain ⟨ix, hix, hix0, hixlt⟩ := hgood k hk
    have hx : m_temp[ix.toNat]? = some (m_temp[ix.toNat]) := List.getElem?_eq_getElem hixlt
    have hr1 := rd_ok Buf.indices indices (0 + (k : Int)) k ix (by simp) hix
    have hr2 := rd_ok Buf.m_temp m_temp ix ix.toNat _ (Int.toNat_of_nonneg hix0).symm hx
    have hw := wr_ok Buf.monitored m1 ((i : Int) * (num : Int) + (0 + (k : Int)))
      (i * num + k) (m_temp[ix.toNat]) (by push_cast; ring) (by omega)
    have hpick : pick m_temp indices k = some (m_temp[ix.toNat]) := by
      simp only [pick, hix, hix0, if_true, hx]
    refine ⟨m1.set (i * num + k) (m_temp[ix.toNat]), ?_, ?_⟩
    · simp only [select_body, hr1, hr2, hw, bind, Except.bind]
    · refine ⟨by simpa using h1l, ?_⟩
      intro q
      simp only [List.getElem?_set, h1v q]
      by_cases hqk : i * num + k = q
      · subst hqk
        have hlen : i * num + k < m1.length := by omega
        simp [hlen, hpick]
      · simp only [hqk, if_false]
        by_cases hin : i * num ≤ q ∧ q < i * num + k
        · have : i * num ≤ q ∧ q < i * num + (k + 1) := ⟨hin.1, by omega⟩
          simp [hin, this]
        · have : ¬ (i * num ≤ q ∧ q < i * num + (k + 1)) := by omega
          simp [hin, this]

/-- The sampler state after `L` iterations of its outer loop. -/
theorem sampler_loop_spec {α : Type} (M : Model α) (monitored states parameters u
    t_values : List α) (L : Nat) (indices : List Int) (num : Nat)
    (hmon : ∀ t v p, v.length = M.NUM_STATES → (M.monitor_values t v p).length = M.NUM_MONITORED)
    (hu : u.length = M.NUM_STATES) (hs : L * M.NUM_STATES ≤ states.length)
    (ht : L ≤ t_values.length) (hm : L * num ≤ monitored.length)
    (hgood : ∀ j, j < num →
      ∃ ix, indices[j]? = some ix ∧ 0 ≤ ix ∧ ix.toNat < M.NUM_MONITORED) :
    ∃ s3, loopFrom (sample_body M states parameters t_values indices (num : Int)) L 0
        { monitored := monitored, u := u } = .ok s3 ∧
      s3.monitored.length = monitored.length ∧
      s3.u = (if L = 0 then u else row M.NUM_STATES states (L - 1)) ∧
      ∀ q, s3.monitored[q]? =
        if q < L * num then
          pick (monitor_at M states parameters t_values (q / num)) indices (q % num)
        else monitored[q]? := by
  apply loopFrom_inv (sample_body M states parameters t_values indices (num : Int))
    (fun k s1 => s1.monitored.length = monitored.length ∧
      s1.u = (if k = 0 then u else row M.NUM_STATES states (k - 1)) ∧
      ∀ q, s1.monitored[q]? =
        if q < k * num then
          pick (monitor_at M states parameters t_values (q / num)) indices (q % num)
        else monitored[q]?)
    L 0 _ ⟨rfl, rfl, fun q => by rw [if_neg]; omega⟩
  intro k s1 hk ⟨h1l, h1u, h1v⟩
  have hx : t_values[k]? = some (t_values[k]) := List.getElem?_eq_getElem (by omega)
  have hr := rd_ok Buf.t_values t_values (0 + (k : Int)) k _ (by simp) hx
  have hrowsS : (k + 1) * M.NUM_STATES ≤ L * M.NUM_STATES :=
    Nat.mul_le_mul_right _ (by omega)
  have hrowsM : (k + 1) * num ≤ L * num := Nat.mul_le_mul_right _ (by omega)
  have hsum : (k + 1) * num = k * num + num := by ring
  have h1ul : s1.u.length = M.NUM_STATES := by
    rw [h1u]
    split
    · exact hu
    · simp only [row, List.length_take, List.length_drop]
      have hk1 : (k - 1 + 1) * M.NUM_STATES ≤ L * M.NUM_STATES :=
        Nat.mul_le_mul_right _ (by omega)
      have hsum1 : (k - 1 + 1) * M.NUM_STATES = (k - 1) * M.NUM_STATES + M.NUM_STATES := by
        ring
      omega
  have hload := load_loop_spec M.NUM_STATES states s1.u k h1ul (by omega)
  have hrowl : (row M.NUM_STATES states k).length = M.NUM_STATES := by
    simp only [row, List.length_take, List.length_drop]
    have hsumS : (k + 1) * M.NUM_STATES = k * M.NUM_STATES + M.NUM_STATES := by ring
    omega
  have hat : monitor_at M states parameters t_values k
      = M.monitor_values (t_values[k]) (row M.NUM_STATES states k) parameters := by
    simp only [monitor_at, hx]
  obtain ⟨m3, hsel, h3l, h3v⟩ := select_loop_spec
    (M.monitor_values (t_values[k]) (row M.NUM_STATES states k) parameters) indices num k
    s1.monitored (by omega)
    (by rw [hmon _ _ _ hrowl]; exact hgood)
  refine ⟨{ monitored := m3, u := row M.NUM_STATES states k }, ?_, ?_, ?_, ?_⟩
  · simp only [zero_add] at hr ⊢
    simp only [sample_body, hr, hload, hsel, bind, Except.bind, pure, Except.pure]
  · simpa [h1l] using h3l
  · simp
  · intro q
    simp only [h3v q, h1v q]
    by_cases hwin : k * num ≤ q ∧ q < k * num + num
    · obtain ⟨hd, hmd⟩ := div_mod_of_window num k q hwin.1 hwin.2
      rw [if_pos hwin, if_pos (by omega), hd, hmd, hat]
    · rw [if_neg hwin]
      by_cases hold : q < k * num
      · rw [if_pos hold, if_pos (by omega)]
      · rw [if_neg hold, if_neg (by omega)]

theorem monitored_values_unfold {α : Type} (M : Model α) (monitored states parameters u
    t_values : List α) (length : Int) (indices : List Int) (num : Int) :
    monitored_values M monitored states parameters u t_values length indices num
      = (match loopFrom (sample_body M states parameters t_values indices num) length.toNat 0
            { monitored := monitored, u := u } with
         | .ok s => .ok (s.monitored, s.u)
         | .error e => .error e) := by
  simp only [monitored_values, forLt, sub_zero, bind, Except.bind, pure, Except.pure]
  cases loopFrom (sample_body M states parameters t_values indices num) length.toNat 0
    { monitored := monitored, u := u } <;> rfl

theorem indices_good_of_mem (indices : List Int) (num NM : Nat) (hnum : indices.length = num)
    (hrange : ∀ ix ∈ indices, 0 ≤ ix ∧ ix < (NM : Int)) :
    ∀ j, j < num → ∃ ix, indices[j]? = some ix ∧ 0 ≤ ix ∧ ix.toNat < NM := by
  intro j hj
  have hjl : j < indices.length := by omega
  obtain ⟨h0, h1⟩ := hrange (indices[j]) (List.getElem_mem hjl)
  exact ⟨indices[j], List.getElem?_eq_getElem hjl, h0, by omega⟩

/-- Entries of the output buffer after a call of the sampler with valid indices. -/
theorem sampler_entries {α : Type} (M : Model α) (hM : M.WellSized)
    (monitored states parameters u t_values : List α) (L : Nat) (indices : List Int)
    (num : Nat) (hu : u.length = M.NUM_STATES) (hs : L * M.NUM_STATES ≤ states.length)
    (ht : L ≤ t_values.length) (hm : L * num ≤ monitored.length)
    (hnum : indices.length = num)
    (hrange : ∀ ix ∈ indices, 0 ≤ ix ∧ ix < (M.NUM_MONITORED : Int)) :
    ∃ mon1 u1, monitored_values M monitored states parameters u t_values (L : Int) indices
        (num : Int) = .ok (mon1, u1) ∧
      mon1.length = monitored.length ∧
      (∀ q, L * num ≤ q → mon1[q]? = monitored[q]?) ∧
      ∀ i j, i < L → j < num → ∃ t ix x, t_values[i]? = some t ∧ indices[j]? = some ix ∧
        0 ≤ ix ∧ ix < (M.NUM_MONITORED : Int) ∧ mon1[i * num + j]? = some x ∧
        (M.monitor_values t (row M.NUM_STATES states i) parameters)[ix.toNat]? = some x := by
  have hgood := indices_good_of_mem indices num M.NUM_MONITORED hnum hrange
  obtain ⟨s3, h3, h3l, -, h3v⟩ := sampler_loop_spec M monitored states parameters u t_values L
    indices num hM.2.2 hu hs ht hm hgood
  refine ⟨s3.monitored, s3.u, ?_, h3l, ?_, ?_⟩
  · rw [monitored_values_unfold, Int.toNat_ofNat, h3]
  · intro q hq
    rw [h3v q, if_neg (by omega)]
  · intro i j hi hj
    obtain ⟨ix, hix, hix0, hixlt⟩ := hgood j hj
    have hti : i < t_values.length := by omega
    obtain ⟨hd, hmd⟩ := mul_add_div_mod num i j hj
    have hrows : (i + 1) * num ≤ L * num := Nat.mul_le_mul_right _ (by omega)
    have hsum : (i + 1) * num = i * num + num := by ring
    have hrowsS : (i + 1) * M.NUM_STATES ≤ L * M.NUM_STATES :=
      Nat.mul_le_mul_right _ (by omega)
    have hsumS : (i + 1) * M.NUM_STATES = i * M.NUM_STATES + M.NUM_STATES := by ring
    have hrowl : (row M.NUM_STATES states i).length = M.NUM_STATES := by
      simp only [row, List.length_take, List.length_drop]
      omega
    have hlen := hM.2.2 (t_values[i]) (row M.NUM_STATES states i) parameters hrowl
    have hx : (M.monitor_values (t_values[i]) (row M.NUM_STATES states i) parameters)[ix.toNat]?
        = some ((M.monitor_values (t_values[i]) (row M.NUM_STATES states i)
            parameters)[ix.toNat]) :=
      List.getElem?_eq_getElem (by omega)
    refine ⟨t_values[i], ix, _, List.getElem?_eq_getElem hti, hix, hix0, by omega, ?_, hx⟩
    rw [h3v, if_pos (by omega), hd, hmd]
    simp only [monitor_at, List.getElem?_eq_getElem hti, pick, hix, hix0, if_true, hx]

/-- C2: after `monitored_values` with `L` samples and `num` valid indices, the entry
`monitored[i * num + j]` is component `indices[j]` of
`monitor_values(t_values[i], row i of states, parameters)` for every `i < L`, `j < num`. In
particular, with `indices = [2, 0]` column 0 of every row is monitored quantity 2 and column 1
is monitored quantity 0. -/
theorem C2_monitored_entries {α : Type} (M : Model α) (hM : M.WellSized)
    (monitored states parameters u t_values : List α) (L : Nat) (indices : List Int)
    (num : Nat) (hu : u.length = M.NUM_STATES) (hs : L * M.NUM_STATES ≤ states.length)
    (ht : L ≤ t_values.length) (hm : L * num ≤ monitored.length)
    (hnum : indices.length = num)
    (hrange : ∀ ix ∈ indices, 0 ≤ ix ∧ ix < (M.NUM_MONITORED : Int)) :
    ∃ mon1 u1, monitored_values M monitored states parameters u t_values (L : Int) indices
        (num : Int) = .ok (mon1, u1) ∧
      (∀ i j, i < L → j < num → ∃ t ix x, t_values[i]? = some t ∧ indices[j]? = some ix ∧
        mon1[i * num + j]? = some x ∧
        (M.monitor_values t (row M.NUM_STATES states i) parameters)[ix.toNat]? = some x) ∧
      (indices = [2, 0] → ∀ i, i < L → ∃ t x y, t_values[i]? = some t ∧
        mon1[i * 2 + 0]? = some x ∧
        (M.monitor_values t (row M.NUM_STATES states i) parameters)[2]? = some x ∧
        mon1[i * 2 + 1]? = some y ∧
        (M.monitor_values t (row M.NUM_STATES states i) parameters)[0]? = some y) := by
  obtain ⟨mon1, u1, hrun, -, -, hent⟩ := sampler_entries M hM monitored states parameters u
    t_values L indices num hu hs ht hm hnum hrange
  refine ⟨mon1, u1, hrun, ?_, ?_⟩
  · intro i j hi hj
    obtain ⟨t, ix, x, h1, h2, -, -, h3, h4⟩ := hent i j hi hj
    exact ⟨t, ix, x, h1, h2, h3, h4⟩
  · intro hidx i hi
    subst hidx
    have hnum2 : num = 2 := by simpa using hnum.symm
    subst hnum2
    obtain ⟨t, ix, x, h1, h2, -, -, h3, h4⟩ := hent i 0 hi (by decide)
    obtain ⟨t2, iy, y, g1, g2, -, -, g3, g4⟩ := hent i 1 hi (by decide)
    have hix : ix = 2 := by simpa using h2.symm
    have hiy : iy = 0 := by simpa using g2.symm
    have htt : t2 = t := by
      rw [h1] at g1
      exact (Option.some.inj g1).symm
    subst hix hiy htt
    exact ⟨t2, x, y, h1, h3, h4, g3, g4⟩

/-- C2 at the toy model: two samples, indices `[2, 0]`. -/
theorem C2_monitored_entries_witness :
    toyModel.WellSized ∧ [(0 : Int), 0].length = toyModel.NUM_STATES ∧
    2 * toyModel.NUM_STATES ≤ [(1 : Int), 2, 3, 4].length ∧
    2 ≤ [(10 : Int), 20].length ∧ 2 * 2 ≤ [(9 : Int), 9, 9, 9, 9].length ∧
    [(2 : Int), 0].length = 2 ∧
    (∀ ix ∈ [(2 : Int), 0], 0 ≤ ix ∧ ix < (toyModel.NUM_MONITORED : Int)) ∧
    (∃ mon1 u1, monitored_values toyModel [9, 9, 9, 9, 9] [1, 2, 3, 4] [3] [0, 0] [10, 20]
        ((2 : Nat) : Int) [2, 0] ((2 : Nat) : Int) = .ok (mon1, u1) ∧
      (∀ i j, i < 2 → j < 2 → ∃ t ix x, [(10 : Int), 20][i]? = some t ∧
        [(2 : Int), 0][j]? = some ix ∧ mon1[i * 2 + j]? = some x ∧
        (toyModel.monitor_values t (row toyModel.NUM_STATES [1, 2, 3, 4] i) [3])[ix.toNat]?
          = some x) ∧
      ([(2 : Int), 0] = [2, 0] → ∀ i, i < 2 → ∃ t x y, [(10 : Int), 20][i]? = some t ∧
        mon1[i * 2 + 0]? = some x ∧
        (toyModel.monitor_values t (row toyModel.NUM_STATES [1, 2, 3, 4] i) [3])[2]? = some x ∧
        mon1[i * 2 + 1]? = some y ∧
        (toyModel.monitor_values t (row toyModel.NUM_STATES [1, 2, 3, 4] i) [3])[0]?
          = some y)) :=
  ⟨toyModel_wellSized, by decide, by decide, by decide, by decide, by decide, by decide,
    C2_monitored_entries toyModel toyModel_wellSized [9, 9, 9, 9, 9] [1, 2, 3, 4] [3] [0, 0]
      [10, 20] 2 [2, 0] 2 (by decide) (by decide) (by decide) (by decide) (by decide)
      (by decide)⟩

/-- C5: a call of `monitored_values` with `L` samples and `num` valid indices returns an
output buffer of the same length in which every entry at a position `≥ L * num` is unchanged,
and every row `i < L` (entries `i * num .. i * num + num - 1`) is overwritten with values that
depend only on `t_values[i]`, row `i` of `states`, the parameters and the index list: a second
call (other trajectory, grid, prior output, scratch state and sample count) that agrees with
the first at sample `i` gives the same output row `i`. -/
theorem C5_output_frame_and_row_locality {α : Type} (M : Model α) (hM : M.WellSized)
    (parameters : List α) (indices : List Int) (num : Nat)
    (monA statesA uA tA : List α) (LA : Nat)
    (monB statesB uB tB : List α) (LB : Nat)
    (hnum : indices.length = num)
    (hrange : ∀ ix ∈ indices, 0 ≤ ix ∧ ix < (M.NUM_MONITORED : Int))
    (huA : uA.length = M.NUM_STATES) (hsA : LA * M.NUM_STATES ≤ statesA.length)
    (htA : LA ≤ tA.length) (hmA : LA * num ≤ monA.length)
    (huB : uB.length = M.NUM_STATES) (hsB : LB * M.NUM_STATES ≤ statesB.length)
    (htB : LB ≤ tB.length) (hmB : LB * num ≤ monB.length) :
    ∃ monA1 uA1 monB1 uB1,
      monitored_values M monA statesA parameters uA tA (LA : Int) indices (num : Int)
        = .ok (monA1, uA1) ∧
      monitored_values M monB statesB parameters uB tB (LB : Int) indices (num : Int)
        = .ok (monB1, uB1) ∧
      monA1.length = monA.length ∧
      (∀ q, LA * num ≤ q → monA1[q]? = monA[q]?) ∧
      (∀ i, i < LA → i < LB → tA[i]? = tB[i]? →
        row M.NUM_STATES statesA i = row M.NUM_STATES statesB i →
        row num monA1 i = row num monB1 i) := by
  obtain ⟨monA1, uA1, hrunA, hlenA, hframeA, hentA⟩ := sampler_entries M hM monA statesA
    parameters uA tA LA indices num huA hsA htA hmA hnum hrange
  obtain ⟨monB1, uB1, hrunB, -, -, hentB⟩ := sampler_entries M hM monB statesB
    parameters uB tB LB indices num huB hsB htB hmB hnum hrange
  refine ⟨monA1, uA1, monB1, uB1, hrunA, hrunB, hlenA, hframeA, ?_⟩
  intro i hiA hiB hti hrow
  apply List.ext_getElem?
  intro j
  rw [getElem?_row, getElem?_row]
  by_cases hj : j < num
  · obtain ⟨t, ix, x, h1, h2, -, -, h3, h4⟩ := hentA i j hiA hj
    obtain ⟨t2, iy, y, g1, g2, -, -, g3, g4⟩ := hentB i j hiB hj
    have hixy : iy = ix := by
      rw [h2] at g2
      exact (Option.some.inj g2).symm
    have htt : t2 = t := by
      rw [← hti, h1] at g1
      exact (Option.some.inj g1).symm
    subst hixy htt
    rw [← hrow, h4] at g4
    rw [if_pos hj, if_pos hj, h3, g3, g4]
  · rw [if_neg hj, if_neg hj]

/-- C5 at the toy model: two calls whose inputs agree only at sample 1. -/
theorem C5_output_frame_and_row_locality_witness :
    toyModel.WellSized ∧ [(2 : Int), 0].length = 2 ∧
    (∀ ix ∈ [(2 : Int), 0], 0 ≤ ix ∧ ix < (toyModel.NUM_MONITORED : Int)) ∧
    [(0 : Int), 0].length = toyModel.NUM_STATES ∧
    2 * toyModel.NUM_STATES ≤ [(1 : Int), 2, 3, 4].length ∧
    2 ≤ [(10 : Int), 20].length ∧ 2 * 2 ≤ [(9 : Int), 9, 9, 9, 9].length ∧
    [(5 : Int), 5].length = toyModel.NUM_STATES ∧
    3 * toyModel.NUM_STATES ≤ [(7 : Int), 7, 3, 4, 8, 8].length ∧
    3 ≤ [(11 : Int), 20, 31].length ∧ 3 * 2 ≤ [(0 : Int), 0, 0, 0, 0, 0].length ∧
    (∃ monA1 uA1 monB1 uB1,
      monitored_values toyModel [9, 9, 9, 9, 9] [1, 2, 3, 4] [3] [0, 0] [10, 20]
        ((2 : Nat) : Int) [2, 0] ((2 : Nat) : Int) = .ok (monA1, uA1) ∧
      monitored_values toyModel [0, 0, 0, 0, 0, 0] [7, 7, 3, 4, 8, 8] [3] [5, 5] [11, 20, 31]
        ((3 : Nat) : Int) [2, 0] ((2 : Nat) : Int) = .ok (monB1, uB1) ∧
      monA1.length = [(9 : Int), 9, 9, 9, 9].length ∧
      (∀ q, 2 * 2 ≤ q → monA1[q]? = [(9 : Int), 9, 9, 9, 9][q]?) ∧
      (∀ i, i < 2 → i < 3 → [(10 : Int), 20][i]? = [(11 : Int), 20, 31][i]? →
        row toyModel.NUM_STATES [(1 : Int), 2, 3, 4] i
          = row toyModel.NUM_STATES [(7 : Int), 7, 3, 4, 8, 8] i →
        row 2 monA1 i = row 2 monB1 i)) :=
  ⟨toyModel_wellSized, by decide, by decide, by decide, by decide, by decide, by decide,
    by decide, by decide, by decide, by decide,
    C5_output_frame_and_row_locality toyModel toyModel_wellSized [3] [2, 0] 2
      [9, 9, 9, 9, 9] [1, 2, 3, 4] [0, 0] [10, 20] 2
      [0, 0, 0, 0, 0, 0] [7, 7, 3, 4, 8, 8] [5, 5] [11, 20, 31] 3
      (by decide) (by decide) (by decide) (by decide) (by decide) (by decide)
      (by decide) (by decide) (by decide) (by decide)⟩

/-- C6: if monitored quantity `m` is the identity of state component `c` and
`indices[j] = m`, then for every sample `i < L` the output entry `monitored[i * num + j]`
equals `states[i * NUM_STATES + c]`. -/
theorem C6_identity_monitor_round_trip {α : Type} (M : Model α) (hM : M.WellSized)
    (monitored states parameters u t_values : List α) (L : Nat) (indices : List Int)
    (num : Nat) (m c j : Nat)
    (hid : ∀ t v p, v.length = M.NUM_STATES → (M.monitor_values t v p)[m]? = v[c]?)
    (hj : indices[j]? = some (m : Int))
    (hu : u.length = M.NUM_STATES) (hs : L * M.NUM_STATES ≤ states.length)
    (ht : L ≤ t_values.length) (hm : L * num ≤ monitored.length)
    (hnum : indices.length = num)
    (hrange : ∀ ix ∈ indices, 0 ≤ ix ∧ ix < (M.NUM_MONITORED : Int)) :
    ∃ mon1 u1, monitored_values M monitored states parameters u t_values (L : Int) indices
        (num : Int) = .ok (mon1, u1) ∧
      ∀ i, i < L → ∃ x, mon1[i * num + j]? = some x ∧
        states[i * M.NUM_STATES + c]? = some x := by
  obtain ⟨mon1, u1, hrun, -, -, hent⟩ := sampler_entries M hM monitored states parameters u
    t_values L indices num hu hs ht hm hnum hrange
  refine ⟨mon1, u1, hrun, ?_⟩
  intro i hi
  have hjn : j < num := by
    rw [← hnum]
    by_contra hge
    rw [List.getElem?_eq_none (by omega)] at hj
    exact Option.noConfusion hj
  obtain ⟨t, ix, x, -, h2, -, -, h3, h4⟩ := hent i j hi hjn
  have hix : ix = (m : Int) := by
    rw [hj] at h2
    exact (Option.some.inj h2).symm
  subst hix
  have hrowsS : (i + 1) * M.NUM_STATES ≤ L * M.NUM_STATES :=
    Nat.mul_le_mul_right _ (by omega)
  have hsumS : (i + 1) * M.NUM_STATES = i * M.NUM_STATES + M.NUM_STATES := by ring
  have hrowl : (row M.NUM_STATES states i).length = M.NUM_STATES := by
    simp only [row, List.length_take, List.length_drop]
    omega
  rw [Int.toNat_ofNat, hid t _ parameters hrowl, getElem?_row] at h4
  refine ⟨x, h3, ?_⟩
  by_cases hc : c < M.NUM_STATES
  · rw [if_pos hc] at h4
    exact h4
  · rw [if_neg hc] at h4
    exact Option.noConfusion h4

/-- C6 at the toy model, whose monitored quantity 2 is state component 1. -/
theorem C6_identity_monitor_round_trip_witness :
    toyModel.WellSized ∧
    (∀ (t : Int) (v p : List Int), v.length = toyModel.NUM_STATES →
      (toyModel.monitor_values t v p)[2]? = v[1]?) ∧
    [(2 : Int), 0][0]? = some ((2 : Nat) : Int) ∧
    [(0 : Int), 0].length = toyModel.NUM_STATES ∧
    2 * toyModel.NUM_STATES ≤ [(1 : Int), 2, 3, 4].length ∧
    2 ≤ [(10 : Int), 20].length ∧ 2 * 2 ≤ [(9 : Int), 9, 9, 9, 9].length ∧
    [(2 : Int), 0].length = 2 ∧
    (∀ ix ∈ [(2 : Int), 0], 0 ≤ ix ∧ ix < (toyModel.NUM_MONITORED : Int)) ∧
    (∃ mon1 u1, monitored_values toyModel [9, 9, 9, 9, 9] [1, 2, 3, 4] [3] [0, 0] [10, 20]
        ((2 : Nat) : Int) [2, 0] ((2 : Nat) : Int) = .ok (mon1, u1) ∧
      ∀ i, i < 2 → ∃ x, mon1[i * 2 + 0]? = some x ∧
        [(1 : Int), 2, 3, 4][i * toyModel.NUM_STATES + 1]? = some x) :=
  have hid : ∀ (t : Int) (v p : List Int), v.length = toyModel.NUM_STATES →
      (toyModel.monitor_values t v p)[2]? = v[1]? := by
    intro t v p hv
    match v, hv with
    | [a, b], _ => rfl
  ⟨toyModel_wellSized, hid, by decide, by decide, by decide, by decide, by decide, by decide,
    by decide,
    C6_identity_monitor_round_trip toyModel toyModel_wellSized [9, 9, 9, 9, 9] [1, 2, 3, 4]
      [3] [0, 0] [10, 20] 2 [2, 0] 2 2 1 0 hid (by decide) (by decide) (by decide) (by decide)
      (by decide) (by decide) (by decide)⟩

/-! ## The monitor sampler: bounds -/

/-- The second inner loop of the sampler fails on `m_temp` as soon as one of the indices it
still has to look up is out of range. -/
theorem select_loop_fail {α : Type} (m_temp : List α) (indices : List Int) (num i : Nat)
    (r : Nat) : ∀ (lo : Nat) (mon : List α), lo + r ≤ indices.length →
      i * num + lo + r ≤ mon.length →
      (∃ j, lo ≤ j ∧ j < lo + r ∧
        ∃ ix, indices[j]? = some ix ∧ ¬ (0 ≤ ix ∧ ix.toNat < m_temp.length)) →
      loopFrom (select_body m_temp indices (num : Int) (i : Int)) r (lo : Int) mon
        = .error Buf.m_temp := by
  induction r with
  | zero =>
    intro lo mon _ _ ⟨j, h1, h2, _⟩
    omega
  | succ r ih =>
    intro lo mon hidx hmon ⟨j, hj1, hj2, ix, hix, hbad⟩
    have hlo : lo < indices.length := by omega
    have hr1 := rd_ok Buf.indices indices (lo : Int) lo _ rfl (List.getElem?_eq_getElem hlo)
    by_cases hgood : 0 ≤ indices[lo] ∧ (indices[lo]).toNat < m_temp.length
    · have hx : m_temp[(indices[lo]).toNat]? = some (m_temp[(indices[lo]).toNat]) :=
        List.getElem?_eq_getElem hgood.2
      have hr2 := rd_ok Buf.m_temp m_temp (indices[lo]) (indices[lo]).toNat _
        (Int.toNat_of_nonneg hgood.1).symm hx
      have hw := wr_ok Buf.monitored mon ((i : Int) * (num : Int) + (lo : Int))
        (i * num + lo) (m_temp[(indices[lo]).toNat]) (by push_cast; ring) (by omega)
      have hne : j ≠ lo := by
        intro hjl
        subst hjl
        rw [List.getElem?_eq_getElem hlo] at hix
        have : indices[j] = ix := Option.some.inj hix
        rw [this] at hgood
        exact hbad hgood
      have hnext := ih (lo + 1) (mon.set (i * num + lo) (m_temp[(indices[lo]).toNat]))
        (by omega) (by rw [List.length_set]; omega) ⟨j, by omega, by omega, ix, hix, hbad⟩
      simp only [loopFrom, select_body, hr1, hr2, hw, bind, Except.bind]
      rw [← hnext]
      congr 1
    · have hr2 : rd Buf.m_temp m_temp (indices[lo]) = .error Buf.m_temp :=
        rd_error Buf.m_temp m_temp (indices[lo]) (by omega)
      simp only [loopFrom, select_body, hr1, hr2, bind, Except.bind]

/-- The sampler fails on `m_temp` in its first sample when a requested index is out of
range. -/
theorem sampler_fail {α : Type} (M : Model α) (hM : M.WellSized)
    (monitored states parameters u t_values : List α) (L : Nat) (indices : List Int)
    (num : Nat) (hL : 1 ≤ L) (hu : u.length = M.NUM_STATES)
    (hs : L * M.NUM_STATES ≤ states.length) (ht : L ≤ t_values.length)
    (hm : L * num ≤ monitored.length) (hnum : indices.length = num)
    (hbad : ∃ ix ∈ indices, ¬ (0 ≤ ix ∧ ix < (M.NUM_MONITORED : Int))) :
    monitored_values M monitored states parameters u t_values (L : Int) indices (num : Int)
      = .error Buf.m_temp := by
  obtain ⟨L1, rfl⟩ : ∃ L1, L = L1 + 1 := ⟨L - 1, by omega⟩
  have hsS : (L1 + 1) * M.NUM_STATES = L1 * M.NUM_STATES + M.NUM_STATES := by ring
  have hsM : (L1 + 1) * num = L1 * num + num := by ring
  have hx : t_values[0]? = some (t_values[0]) := List.getElem?_eq_getElem (by omega)
  have hr := rd_ok Buf.t_values t_values 0 0 _ rfl hx
  have hload := load_loop_spec M.NUM_STATES states u 0 hu (by omega)
  have hrowl : (row M.NUM_STATES states 0).length = M.NUM_STATES := by
    simp only [row, List.length_take, List.length_drop]
    omega
  have hlen := hM.2.2 (t_values[0]) (row M.NUM_STATES states 0) parameters hrowl
  obtain ⟨ix, hmem, hixbad⟩ := hbad
  obtain ⟨j, hjlt, hjx⟩ := List.getElem_of_mem hmem
  have hsel := select_loop_fail
    (M.monitor_values (t_values[0]) (row M.NUM_STATES states 0) parameters) indices num 0 num
    0 monitored (by omega) (by omega)
    ⟨j, by omega, by omega, ix, by rw [List.getElem?_eq_getElem hjlt, hjx], by
      rw [hlen]; omega⟩
  rw [monitored_values_unfold, Int.toNat_ofNat]
  simp only [Nat.cast_zero] at hload hsel
  have hforLt : forLt 0 (num : Int)
      (select_body (M.monitor_values (t_values[0]) (row M.NUM_STATES states 0) parameters)
        indices (num : Int) 0) monitored = .error Buf.m_temp := by
    simpa [forLt] using hsel
  simp only [loopFrom, sample_body, hr, hload, hforLt, bind, Except.bind]

/-- C10: with `length ≥ 1` and buffers of the stated sizes, `monitored_values` returns (no
access is out of bounds) if and only if every entry of the index list lies in
`[0, NUM_MONITORED)`; an entry outside that range makes the lookup `m_temp[indices[j]]` fail,
and the call then ends in that out-of-bounds access on `m_temp`: nothing in the function
intercepts it. -/
theorem C10_sampler_bounds {α : Type} (M : Model α) (hM : M.WellSized)
    (monitored states parameters u t_values : List α) (L : Nat) (indices : List Int)
    (num : Nat) (hL : 1 ≤ L) (hs : states.length = L * M.NUM_STATES)
    (ht : t_values.length = L) (hm : monitored.length = L * num)
    (hu : u.length = M.NUM_STATES) (hnum : indices.length = num) :
    ((∃ r, monitored_values M monitored states parameters u t_values (L : Int) indices
        (num : Int) = .ok r) ↔
      ∀ ix ∈ indices, 0 ≤ ix ∧ ix < (M.NUM_MONITORED : Int)) ∧
    (∀ ix ∈ indices, ¬ (0 ≤ ix ∧ ix < (M.NUM_MONITORED : Int)) →
      (∀ t v, v.length = M.NUM_STATES →
        rd Buf.m_temp (M.monitor_values t v parameters) ix = .error Buf.m_temp) ∧
      monitored_values M monitored states parameters u t_values (L : Int) indices (num : Int)
        = .error Buf.m_temp) := by
  have hfail : ∀ ix ∈ indices, ¬ (0 ≤ ix ∧ ix < (M.NUM_MONITORED : Int)) →
      monitored_values M monitored states parameters u t_values (L : Int) indices (num : Int)
        = .error Buf.m_temp := fun ix hmem hbad =>
    sampler_fail M hM monitored states parameters u t_values L indices num hL hu
      (by omega) (by omega) (by omega) hnum ⟨ix, hmem, hbad⟩
  refine ⟨⟨?_, ?_⟩, ?_⟩
  · intro ⟨r, hr⟩ ix hmem
    by_contra hbad
    rw [hfail ix hmem hbad] at hr
    exact Except.noConfusion hr
  · intro hrange
    obtain ⟨mon1, u1, hrun, -⟩ := sampler_entries M hM monitored states parameters u t_values
      L indices num hu (by omega) (by omega) (by omega) hnum hrange
    exact ⟨(mon1, u1), hrun⟩
  · intro ix hmem hbad
    refine ⟨?_, hfail ix hmem hbad⟩
    intro t v hv
    apply rd_error
    rw [hM.2.2 t v parameters hv]
    omega

/-- C10 at the toy model with the index list `[2, 3]`, whose entry 3 is out of range. -/
theorem C10_sampler_bounds_witness :
    toyModel.WellSized ∧ 1 ≤ 2 ∧ [(1 : Int), 2, 3, 4].length = 2 * toyModel.NUM_STATES ∧
    [(10 : Int), 20].length = 2 ∧ [(9 : Int), 9, 9, 9].length = 2 * 2 ∧
    [(0 : Int), 0].length = toyModel.NUM_STATES ∧ [(2 : Int), 3].length = 2 ∧
    (((∃ r, monitored_values toyModel [9, 9, 9, 9] [1, 2, 3, 4] [3] [0, 0] [10, 20]
        ((2 : Nat) : Int) [2, 3] ((2 : Nat) : Int) = .ok r) ↔
      ∀ ix ∈ [(2 : Int), 3], 0 ≤ ix ∧ ix < (toyModel.NUM_MONITORED : Int)) ∧
    (∀ ix ∈ [(2 : Int), 3], ¬ (0 ≤ ix ∧ ix < (toyModel.NUM_MONITORED : Int)) →
      (∀ t v, v.length = toyModel.NUM_STATES →
        rd Buf.m_temp (toyModel.monitor_values t v [3]) ix = .error Buf.m_temp) ∧
      monitored_values toyModel [9, 9, 9, 9] [1, 2, 3, 4] [3] [0, 0] [10, 20]
        ((2 : Nat) : Int) [2, 3] ((2 : Nat) : Int) = .error Buf.m_temp)) :=
  ⟨toyModel_wellSized, by decide, by decide, by decide, by decide, by decide, by decide,
    C10_sampler_bounds toyModel toyModel_wellSized [9, 9, 9, 9] [1, 2, 3, 4] [3] [0, 0]
      [10, 20] 2 [2, 3] 2 (by decide) (by decide) (by decide) (by decide) (by decide)
      (by decide)⟩

/-! ## Numerical test models -/

/-- C7: for a one-state model whose Euler step is `u + dt * (-k * u)`, over any commutative
ring of exact numbers (the rationals and the reals included; the sign of `k` plays no role),
for every grid, `dt`, initial value `u0` seeded into sample 0 and step count `N`, the
trajectory of `ode_solve_forward_euler` satisfies `u_values[n] = u0 * (1 - k * dt) ^ n` for
every `n ≤ N`. -/
theorem C7_linear_model_closed_form {α : Type} [CommRing α] (M : Model α) (k : α)
    (hNS : M.NUM_STATES = 1)
    (hstep : ∀ x t d p, M.forward_explicit_euler [x] t d p = [x + d * (-k * x)])
    (u0 : α) (parameters u_values t_values : List α) (N : Nat) (dt : α)
    (ht : N ≤ t_values.length) (huv : N + 1 ≤ u_values.length)
    (hseed : u_values[0]? = some u0) :
    ∃ u1 uv1, ode_solve_forward_euler M [u0] parameters u_values t_values (N : Int) dt
        = .ok (u1, uv1) ∧
      ∀ n, n ≤ N → uv1[n]? = some (u0 * (1 - k * dt) ^ n) := by
  have hlen : ∀ v t, v.length = M.NUM_STATES →
      (M.forward_explicit_euler v t dt parameters).length = M.NUM_STATES := by
    intro v t hv
    rw [hNS] at hv ⊢
    obtain ⟨x, rfl⟩ := List.length_eq_one.mp hv
    rw [hstep]
    rfl
  have hpow : ∀ n, n ≤ N →
      stepped M.forward_explicit_euler parameters t_values dt [u0] n
        = [u0 * (1 - k * dt) ^ n] := by
    intro n
    induction n with
    | zero => intro _; simp [stepped]
    | succ n ih =>
      intro hn
      have hx : t_values[n]? = some (t_values[n]) := List.getElem?_eq_getElem (by omega)
      rw [stepped_succ _ _ _ _ _ n _ hx, ih (by omega), hstep]
      congr 1
      ring
  obtain ⟨s3, h3, -, -, -, h3v⟩ := driver_loop_spec M.forward_explicit_euler M.NUM_STATES
    parameters t_values dt [u0] u_values N hlen (by rw [hNS]; rfl) ht (by rw [hNS]; omega)
  refine ⟨s3.u, s3.u_values, ?_, ?_⟩
  · rw [forward_euler_unfold, Int.toNat_ofNat, h3]
  · intro n hn
    rw [h3v n, hNS]
    by_cases h0 : n = 0
    · subst h0
      rw [if_neg (by omega), hseed]
      simp
    · rw [if_pos ⟨by omega, by omega⟩, Nat.div_one, Nat.mod_one, hpow n hn]
      rfl

/-- C7 at the rational model with `k = 1/2`, `dt = 1`, `u0 = 8`, three steps. -/
theorem C7_linear_model_closed_form_witness :
    (linearModel (1 / 2 : ℚ)).NUM_STATES = 1 ∧
    (∀ x t d p, (linearModel (1 / 2 : ℚ)).forward_explicit_euler [x] t d p
      = [x + d * (-(1 / 2) * x)]) ∧
    3 ≤ [(0 : ℚ), 1, 2, 3].length ∧ 3 + 1 ≤ [(8 : ℚ), 0, 0, 0].length ∧
    [(8 : ℚ), 0, 0, 0][0]? = some 8 ∧
    (∃ u1 uv1, ode_solve_forward_euler (linearModel (1 / 2 : ℚ)) [8] [] [8, 0, 0, 0]
        [0, 1, 2, 3] ((3 : Nat) : Int) 1 = .ok (u1, uv1) ∧
      ∀ n, n ≤ 3 → uv1[n]? = some (8 * (1 - 1 / 2 * 1) ^ n)) :=
  ⟨rfl, fun _ _ _ _ => rfl, by decide, by decide, rfl,
    C7_linear_model_closed_form (linearModel (1 / 2 : ℚ)) (1 / 2) rfl (fun _ _ _ _ => rfl) 8 []
      [8, 0, 0, 0] [0, 1, 2, 3] 3 1 (by decide) (by decide) rfl⟩

/-- C8: for a one-state model whose Rush-Larsen step is
`u + (u_inf - u) * (1 - exp (-dt / tau))` with `tau > 0`, over the reals, for every `u0` and
every `dt > 0`, one step of `ode_solve_rush_larsen` gives
`u_values[1] = u_inf + (u0 - u_inf) * exp (-dt / tau)`, hence
`|u_values[1] - u_inf| ≤ |u0 - u_inf|`. -/
theorem C8_rush_larsen_gate_step (M : Model ℝ) (u_inf tau : ℝ) (hNS : M.NUM_STATES = 1)
    (hstep : ∀ x t d p, M.forward_generalized_rush_larsen [x] t d p
      = [x + (u_inf - x) * (1 - Real.exp (-d / tau))])
    (htau : 0 < tau) (u0 dt : ℝ) (hdt : 0 < dt) (parameters u_values t_values : List ℝ)
    (ht : 1 ≤ t_values.length) (huv : 2 ≤ u_values.length) :
    ∃ u1 uv1 x, ode_solve_rush_larsen M [u0] parameters u_values t_values 1 dt
        = .ok (u1, uv1) ∧
      uv1[1]? = some x ∧ x = u_inf + (u0 - u_inf) * Real.exp (-dt / tau) ∧
      |x - u_inf| ≤ |u0 - u_inf| := by
  have hlen : ∀ v t, v.length = M.NUM_STATES →
      (M.forward_generalized_rush_larsen v t dt parameters).length = M.NUM_STATES := by
    intro v t hv
    rw [hNS] at hv ⊢
    obtain ⟨x, rfl⟩ := List.length_eq_one.mp hv
    rw [hstep]
    rfl
  have hx : t_values[0]? = some (t_values[0]) := List.getElem?_eq_getElem (by omega)
  have hone : stepped M.forward_generalized_rush_larsen parameters t_values dt [u0] 1
      = [u_inf + (u0 - u_inf) * Real.exp (-dt / tau)] := by
    rw [stepped_succ _ _ _ _ _ 0 _ hx]
    simp only [stepped]
    rw [hstep]
    congr 1
    ring
  obtain ⟨s3, h3, -, -, -, h3v⟩ := driver_loop_spec M.forward_generalized_rush_larsen
    M.NUM_STATES parameters t_values dt [u0] u_values 1 hlen (by rw [hNS]; rfl) ht
    (by rw [hNS]; omega)
  refine ⟨s3.u, s3.u_values, u_inf + (u0 - u_inf) * Real.exp (-dt / tau), ?_, ?_, rfl, ?_⟩
  · rw [rush_larsen_unfold]
    have e : (1 : Int).toNat = 1 := rfl
    rw [e, h3]
  · rw [h3v 1, hNS, if_pos ⟨by omega, by omega⟩, Nat.div_one, Nat.mod_one, hone]
    rfl
  · have hneg : -dt / tau ≤ 0 := by
      have : 0 < dt / tau := div_pos hdt htau
      have e : -dt / tau = -(dt / tau) := by ring
      linarith
    have he1 : Real.exp (-dt / tau) ≤ 1 := Real.exp_le_one_iff.mpr hneg
    have he0 : 0 ≤ Real.exp (-dt / tau) := (Real.exp_pos _).le
    have e : u_inf + (u0 - u_inf) * Real.exp (-dt / tau) - u_inf
        = (u0 - u_inf) * Real.exp (-dt / tau) := by ring
    rw [e, abs_mul, abs_of_nonneg he0]
    exact mul_le_of_le_one_right (abs_nonneg _) he1

/-- C8 at the gate model with `u_inf = 2`, `tau = 1`, from `u0 = 0` with the large step
`dt = 1000`. -/
theorem C8_rush_larsen_gate_step_witness :
    (gateModel Real.exp 2 1).NUM_STATES = 1 ∧
    (∀ x t d p, (gateModel Real.exp 2 1).forward_generalized_rush_larsen [x] t d p
      = [x + (2 - x) * (1 - Real.exp (-d / 1))]) ∧
    (0 : ℝ) < 1 ∧ (0 : ℝ) < 1000 ∧ 1 ≤ [(0 : ℝ), 1000].length ∧
    2 ≤ [(0 : ℝ), 0].length ∧
    (∃ u1 uv1 x, ode_solve_rush_larsen (gateModel Real.exp 2 1) [0] [] [0, 0] [0, 1000] 1
        1000 = .ok (u1, uv1) ∧
      uv1[1]? = some x ∧ x = 2 + (0 - 2) * Real.exp (-1000 / 1) ∧
      |x - 2| ≤ |(0 : ℝ) - 2|) :=
  ⟨rfl, fun _ _ _ _ => rfl, by norm_num, by norm_num, by decide, by decide,
    C8_rush_larsen_gate_step (gateModel Real.exp 2 1) 2 1 rfl (fun _ _ _ _ => rfl)
      (by norm_num) 0 1000 (by norm_num) [] [0, 0] [0, 1000] (by decide) (by decide)⟩

/-! ## Trajectory drivers: bounds -/

/-- Outcome of a driver loop: it returns, with the stepped state in `u` and the trajectory
buffer changed exactly in rows `1 .. n`. -/
theorem driver_run {α : Type} (step : List α → α → α → List α → List α) (NS : Nat)
    (parameters t_values : List α) (dt : α) (u u_values : List α) (n : Nat)
    (hstep : ∀ v t, v.length = NS → (step v t dt parameters).length = NS)
    (hu : u.length = NS)
    (ht : n ≤ t_values.length) (huv : (n + 1) * NS ≤ u_values.length) :
    ∃ uv1,
      (match loopFrom (step_body step NS parameters t_values dt) n 1
            { save_it := 1, u := u, u_values := u_values } with
         | .ok s => (.ok (s.u, s.u_values) : Except Buf (List α × List α))
         | .error e => .error e)
        = .ok (stepped step parameters t_values dt u n, uv1) ∧
      uv1.length = u_values.length ∧
      ∀ i, uv1[i]? =
        if NS ≤ i ∧ i < (n + 1) * NS then
          (stepped step parameters t_values dt u (i / NS))[i % NS]?
        else u_values[i]? := by
  obtain ⟨s3, h3, -, h3u, h3l, h3v⟩ := driver_loop_spec step NS parameters t_values dt u
    u_values n hstep hu ht huv
  refine ⟨s3.u_values, ?_, h3l, h3v⟩
  rw [h3, ← h3u]

/-- A driver loop reads the grid only below index `n`: cutting the grid after `n` entries
gives the same outcome. -/
theorem driver_run_take {α : Type} (step : List α → α → α → List α → List α) (NS : Nat)
    (parameters t_values : List α) (dt : α) (u u_values : List α) (n : Nat)
    (hstep : ∀ v t, v.length = NS → (step v t dt parameters).length = NS)
    (hu : u.length = NS)
    (ht : n ≤ t_values.length) (huv : (n + 1) * NS ≤ u_values.length) :
    ∃ u1 uv1,
      (match loopFrom (step_body step NS parameters t_values dt) n 1
            { save_it := 1, u := u, u_values := u_values } with
         | .ok s => (.ok (s.u, s.u_values) : Except Buf (List α × List α))
         | .error e => .error e) = .ok (u1, uv1) ∧
      (match loopFrom (step_body step NS parameters (t_values.take n) dt) n 1
            { save_it := 1, u := u, u_values := u_values } with
         | .ok s => (.ok (s.u, s.u_values) : Except Buf (List α × List α))
         | .error e => .error e) = .ok (u1, uv1) ∧
      u1.length = NS ∧ uv1.length = u_values.length ∧
      (∀ i, i < NS → uv1[i]? = u_values[i]?) ∧
      (∀ i, (n + 1) * NS ≤ i → uv1[i]? = u_values[i]?) := by
  obtain ⟨uvA, hA, hAl, hAv⟩ := driver_run step NS parameters t_values dt u u_values n hstep
    hu ht huv
  obtain ⟨uvB, hB, hBl, hBv⟩ := driver_run step NS parameters (t_values.take n) dt u u_values
    n hstep hu (by rw [List.length_take]; omega) huv
  have hgrid : ∀ j, j < n → t_values[j]? = (t_values.take n)[j]? := by
    intro j hj
    rw [List.getElem?_take, if_pos hj]
  have hst : ∀ k, k ≤ n → stepped step parameters t_values dt u k
      = stepped step parameters (t_values.take n) dt u k := fun k hk =>
    stepped_congr step parameters t_values (t_values.take n) dt u k
      (fun j hj => hgrid j (by omega))
  have huvAB : uvB = uvA := by
    apply List.ext_getElem?
    intro i
    rw [hAv i, hBv i]
    by_cases hin : NS ≤ i ∧ i < (n + 1) * NS
    · rw [if_pos hin, if_pos hin]
      have hdiv : i / NS ≤ n := by
        have hpos : 0 < NS := by
          rcases Nat.eq_zero_or_pos NS with h0 | hp
          · rw [h0] at hin; omega
          · exact hp
        have := (Nat.div_lt_iff_lt_mul hpos).mpr hin.2
        omega
      rw [hst _ hdiv]
    · rw [if_neg hin, if_neg hin]
  refine ⟨_, uvA, hA, ?_, ?_, hAl, ?_, ?_⟩
  · rw [hB, huvAB, hst n (Nat.le_refl n)]
  · exact stepped_length step NS parameters t_values dt u hstep hu n
  · intro i hi
    rw [hAv i, if_neg (by omega)]
  · intro i hi
    rw [hAv i, if_neg (by omega)]

/-- C11: for every `n ≥ 0`, with a grid of `n + 1` entries, a trajectory buffer of
`(n + 1) * NUM_STATES` entries and a state vector of `NUM_STATES` entries, both drivers return:
no checked access fails. The grid is read only at indices `0 .. n - 1` (the run on the grid cut
after `n` entries returns the same result), the trajectory buffer keeps its length and its
entries below `NUM_STATES`, and `u` keeps its `NUM_STATES` entries. -/
theorem C11_driver_bounds {α : Type} (M : Model α) (hM : M.WellSized)
    (u parameters u_values t_values : List α) (n : Nat) (dt : α)
    (hu : u.length = M.NUM_STATES) (ht : t_values.length = n + 1)
    (huv : u_values.length = (n + 1) * M.NUM_STATES) :
    (∃ u1 uv1,
      ode_solve_forward_euler M u parameters u_values t_values (n : Int) dt = .ok (u1, uv1) ∧
      ode_solve_forward_euler M u parameters u_values (t_values.take n) (n : Int) dt
        = .ok (u1, uv1) ∧
      u1.length = M.NUM_STATES ∧ uv1.length = (n + 1) * M.NUM_STATES ∧
      ∀ i, i < M.NUM_STATES → uv1[i]? = u_values[i]?) ∧
    (∃ u1 uv1,
      ode_solve_rush_larsen M u parameters u_values t_values (n : Int) dt = .ok (u1, uv1) ∧
      ode_solve_rush_larsen M u parameters u_values (t_values.take n) (n : Int) dt
        = .ok (u1, uv1) ∧
      u1.length = M.NUM_STATES ∧ uv1.length = (n + 1) * M.NUM_STATES ∧
      ∀ i, i < M.NUM_STATES → uv1[i]? = u_values[i]?) := by
  constructor
  · obtain ⟨u1, uv1, h1, h2, h3, h4, h5, -⟩ := driver_run_take M.forward_explicit_euler
      M.NUM_STATES parameters t_values dt u u_values n
      (fun v t hv => hM.1 v t dt parameters hv) hu (by omega) (by omega)
    refine ⟨u1, uv1, ?_, ?_, h3, by rw [h4, huv], h5⟩
    · rw [forward_euler_unfold, Int.toNat_ofNat, h1]
    · rw [forward_euler_unfold, Int.toNat_ofNat, h2]
  · obtain ⟨u1, uv1, h1, h2, h3, h4, h5, -⟩ := driver_run_take
      M.forward_generalized_rush_larsen M.NUM_STATES parameters t_values dt u u_values n
      (fun v t hv => hM.2.1 v t dt parameters hv) hu (by omega) (by omega)
    refine ⟨u1, uv1, ?_, ?_, h3, by rw [h4, huv], h5⟩
    · rw [rush_larsen_unfold, Int.toNat_ofNat, h1]
    · rw [rush_larsen_unfold, Int.toNat_ofNat, h2]

/-- C11 at the toy model, two steps. -/
theorem C11_driver_bounds_witness :
    toyModel.WellSized ∧ [(1 : Int), 2].length = toyModel.NUM_STATES ∧
    [(10 : Int), 20, 30].length = 2 + 1 ∧
    [(7 : Int), 7, 7, 7, 7, 7].length = (2 + 1) * toyModel.NUM_STATES ∧
    ((∃ u1 uv1,
      ode_solve_forward_euler toyModel [1, 2] [3] [7, 7, 7, 7, 7, 7] [10, 20, 30]
        ((2 : Nat) : Int) 2 = .ok (u1, uv1) ∧
      ode_solve_forward_euler toyModel [1, 2] [3] [7, 7, 7, 7, 7, 7]
        ([(10 : Int), 20, 30].take 2) ((2 : Nat) : Int) 2 = .ok (u1, uv1) ∧
      u1.length = toyModel.NUM_STATES ∧ uv1.length = (2 + 1) * toyModel.NUM_STATES ∧
      ∀ i, i < toyModel.NUM_STATES → uv1[i]? = [(7 : Int), 7, 7, 7, 7, 7][i]?) ∧
    (∃ u1 uv1,
      ode_solve_rush_larsen toyModel [1, 2] [3] [7, 7, 7, 7, 7, 7] [10, 20, 30]
        ((2 : Nat) : Int) 2 = .ok (u1, uv1) ∧
      ode_solve_rush_larsen toyModel [1, 2] [3] [7, 7, 7, 7, 7, 7]
        ([(10 : Int), 20, 30].take 2) ((2 : Nat) : Int) 2 = .ok (u1, uv1) ∧
      u1.length = toyModel.NUM_STATES ∧ uv1.length = (2 + 1) * toyModel.NUM_STATES ∧
      ∀ i, i < toyModel.NUM_STATES → uv1[i]? = [(7 : Int), 7, 7, 7, 7, 7][i]?)) :=
  ⟨toyModel_wellSized, by decide, by decide, by decide,
    C11_driver_bounds toyModel toyModel_wellSized [1, 2] [3] [7, 7, 7, 7, 7, 7] [10, 20, 30]
      2 2 (by decide) (by decide) (by decide)⟩

/-! ## The functions over the whole memory of a call -/

/-- A loop over a larger state that acts through `f` as a loop over a smaller state. -/
theorem loopFrom_sim {σ τ : Type} (f : τ → σ) (bodyS : Int → σ → Except Buf σ)
    (bodyT : Int → τ → Except Buf τ)
    (h : ∀ i t, bodyS i (f t) = (bodyT i t).map f) (r : Nat) :
    ∀ (lo : Int) (t : τ), loopFrom bodyS r lo (f t) = (loopFrom bodyT r lo t).map f := by
  induction r with
  | zero => intro lo t; rfl
  | succ r ih =>
    intro lo t
    simp only [loopFrom, h]
    cases hb : bodyT lo t with
    | error e => rfl
    | ok t1 => exact ih (lo + 1) t1

theorem copy_stmt_put {α : Type} (NS : Nat) (u_temp : List α) (m : DriverMem α) (j : Int)
    (s : DriverState α) :
    copy_stmt NS u_temp j (m.put s) = (copy_body NS u_temp j s).map m.put := by
  simp only [copy_stmt, copy_body, DriverMem.put, bind, Except.bind, pure, Except.pure]
  cases rd Buf.u_temp u_temp j with
  | error e => rfl
  | ok x =>
    simp only []
    cases wr Buf.u_values s.u_values (s.save_it * (NS : Int) + j) x with
    | error e => rfl
    | ok uv =>
      simp only []
      cases wr Buf.u s.u j x with
      | error e => rfl
      | ok u1 => rfl

theorem step_stmt_put {α : Type} (step : List α → α → α → List α → List α) (NS : Nat)
    (dt : α) (m : DriverMem α) (it : Int) (s : DriverState α) :
    step_stmt step NS dt it (m.put s)
      = (step_body step NS m.parameters m.t_values dt it s).map m.put := by
  simp only [step_stmt, step_body, forLt, bind, Except.bind, pure, Except.pure]
  have ht : (m.put s).t_values = m.t_values := rfl
  have hp : (m.put s).parameters = m.parameters := rfl
  have hu : (m.put s).u = s.u := rfl
  rw [ht, hp, hu]
  cases rd Buf.t_values m.t_values (it - 1) with
  | error e => rfl
  | ok t =>
    simp only []
    rw [loopFrom_sim m.put (copy_stmt NS (step s.u t dt m.parameters))
      (copy_body NS (step s.u t dt m.parameters))
      (fun j s1 => copy_stmt_put NS _ m j s1)]
    cases loopFrom (copy_body NS (step s.u t dt m.parameters)) ((NS : Int) - 0).toNat 0 s with
    | error e => rfl
    | ok s1 => rfl

theorem euler_stmt_eq {α : Type} (M : Model α) (dt : α) :
    euler_stmt M dt = step_stmt M.forward_explicit_euler M.NUM_STATES dt := rfl

theorem rush_larsen_stmt_eq {α : Type} (M : Model α) (dt : α) :
    rush_larsen_stmt M dt = step_stmt M.forward_generalized_rush_larsen M.NUM_STATES dt := rfl

/-- The driver loop on the memory of the call computes what the driver loop on `u` and
`u_values` computes and leaves the other buffers as they are. -/
theorem driver_mem_loop {α : Type} (step : List α → α → α → List α → List α) (NS : Nat)
    (dt : α) (m : DriverMem α) (r : Nat) :
    loopFrom (step_stmt step NS dt) r 1 { m with save_it := 1 }
      = (loopFrom (step_body step NS m.parameters m.t_values dt) r 1
          { save_it := 1, u := m.u, u_values := m.u_values }).map m.put :=
  loopFrom_sim m.put (step_stmt step NS dt) (step_body step NS m.parameters m.t_values dt)
    (fun it s => step_stmt_put step NS dt m it s) r 1
    { save_it := 1, u := m.u, u_values := m.u_values }

theorem forLe_one_toNat (N : Int) : (N + 1 - 1).toNat = N.toNat := by
  congr 1
  ring

/-- A driver over the memory of the call: outcome and frame. -/
theorem driver_mem_frame {α : Type} (step : List α → α → α → List α → List α) (NS : Nat)
    (dt : α) (m : DriverMem α) (N : Int)
    (hstep : ∀ v t, v.length = NS → (step v t dt m.parameters).length = NS)
    (hu : m.u.length = NS) (ht : N.toNat ≤ m.t_values.length)
    (huv : (N.toNat + 1) * NS ≤ m.u_values.length) :
    ∃ m1, forLe 1 N (step_stmt step NS dt) { m with save_it := 1 } = .ok m1 ∧
      (match loopFrom (step_body step NS m.parameters m.t_values dt) N.toNat 1
            { save_it := 1, u := m.u, u_values := m.u_values } with
         | .ok s => (.ok (s.u, s.u_values) : Except Buf (List α × List α))
         | .error e => .error e) = .ok (m1.u, m1.u_values) ∧
      m1.parameters = m.parameters ∧ m1.t_values = m.t_values ∧
      m1.u_values.length = m.u_values.length ∧
      (∀ i, i < NS → m1.u_values[i]? = m.u_values[i]?) ∧
      (∀ i, (N.toNat + 1) * NS ≤ i → m1.u_values[i]? = m.u_values[i]?) := by
  obtain ⟨s3, h3, -, -, h3l, h3v⟩ := driver_loop_spec step NS m.parameters m.t_values dt m.u
    m.u_values N.toNat hstep hu ht huv
  refine ⟨m.put s3, ?_, ?_, rfl, rfl, h3l, ?_, ?_⟩
  · rw [forLe, forLe_one_toNat, driver_mem_loop, h3]
    rfl
  · rw [h3]
    rfl
  · intro i hi
    exact (h3v i).trans (if_neg (by omega))
  · intro i hi
    exact (h3v i).trans (if_neg (by omega))

/-- With no step to take a driver returns the memory it was handed. -/
theorem driver_mem_no_step {α : Type} (body : Int → DriverMem α → Except Buf (DriverMem α))
    (m : DriverMem α) (N : Int) (hN : N ≤ 0) :
    forLe 1 N body { m with save_it := 1 } = .ok { m with save_it := 1 } := by
  have h0 : (N + 1 - 1).toNat = 0 := by omega
  rw [forLe, h0]
  rfl

/-- C14: for every input with buffers of sufficient size and every `num_timesteps`, both
drivers return with the parameters and the time grid unchanged, the trajectory buffer of the
same length, its row 0 (entries `0 .. NUM_STATES - 1`) and every entry at or beyond
`(num_timesteps + 1) * NUM_STATES` as the caller left them; the written buffers are those
computed by `ode_solve_forward_euler` / `ode_solve_rush_larsen`. For `num_timesteps ≤ 0`, and
then for every memory, the loop body never runs: the call returns the memory unchanged. -/
theorem C14_driver_frame {α : Type} (M : Model α) (hM : M.WellSized) (m : DriverMem α)
    (num_timesteps : Int) (dt : α)
    (hu : m.u.length = M.NUM_STATES) (ht : num_timesteps.toNat ≤ m.t_values.length)
    (huv : (num_timesteps.toNat + 1) * M.NUM_STATES ≤ m.u_values.length) :
    (∃ m1, ode_solve_forward_euler_mem M m num_timesteps dt = .ok m1 ∧
      ode_solve_forward_euler M m.u m.parameters m.u_values m.t_values num_timesteps dt
        = .ok (m1.u, m1.u_values) ∧
      m1.parameters = m.parameters ∧ m1.t_values = m.t_values ∧
      m1.u_values.length = m.u_values.length ∧
      (∀ i, i < M.NUM_STATES → m1.u_values[i]? = m.u_values[i]?) ∧
      (∀ i, (num_timesteps.toNat + 1) * M.NUM_STATES ≤ i →
        m1.u_values[i]? = m.u_values[i]?)) ∧
    (∃ m1, ode_solve_rush_larsen_mem M m num_timesteps dt = .ok m1 ∧
      ode_solve_rush_larsen M m.u m.parameters m.u_values m.t_values num_timesteps dt
        = .ok (m1.u, m1.u_values) ∧
      m1.parameters = m.parameters ∧ m1.t_values = m.t_values ∧
      m1.u_values.length = m.u_values.length ∧
      (∀ i, i < M.NUM_STATES → m1.u_values[i]? = m.u_values[i]?) ∧
      (∀ i, (num_timesteps.toNat + 1) * M.NUM_STATES ≤ i →
        m1.u_values[i]? = m.u_values[i]?)) ∧
    (∀ (m2 : DriverMem α) (n2 : Int), n2 ≤ 0 →
      (∃ m3, ode_solve_forward_euler_mem M m2 n2 dt = .ok m3 ∧ m3.u = m2.u ∧
        m3.u_values = m2.u_values ∧ m3.parameters = m2.parameters ∧
        m3.t_values = m2.t_values) ∧
      (∃ m3, ode_solve_rush_larsen_mem M m2 n2 dt = .ok m3 ∧ m3.u = m2.u ∧
        m3.u_values = m2.u_values ∧ m3.parameters = m2.parameters ∧
        m3.t_values = m2.t_values)) := by
  refine ⟨?_, ?_, ?_⟩
  · obtain ⟨m1, h1, h2, h3⟩ := driver_mem_frame M.forward_explicit_euler M.NUM_STATES dt m
      num_timesteps (fun v t hv => hM.1 v t dt m.parameters hv) hu ht huv
    refine ⟨m1, ?_, ?_, h3⟩
    · rw [ode_solve_forward_euler_mem, euler_stmt_eq, h1]
    · rw [forward_euler_unfold, h2]
  · obtain ⟨m1, h1, h2, h3⟩ := driver_mem_frame M.forward_generalized_rush_larsen
      M.NUM_STATES dt m num_timesteps (fun v t hv => hM.2.1 v t dt m.parameters hv) hu ht huv
    refine ⟨m1, ?_, ?_, h3⟩
    · rw [ode_solve_rush_larsen_mem, rush_larsen_stmt_eq, h1]
    · rw [rush_larsen_unfold, h2]
  · intro m2 n2 hn2
    refine ⟨⟨_, driver_mem_no_step (euler_stmt M dt) m2 n2 hn2, rfl, rfl, rfl, rfl⟩,
      ⟨_, driver_mem_no_step (rush_larsen_stmt M dt) m2 n2 hn2, rfl, rfl, rfl, rfl⟩⟩

/-- C14 at the toy model, one step over a buffer of four rows. -/
theorem C14_driver_frame_witness :
    toyModel.WellSized ∧ [(1 : Int), 2].length = toyModel.NUM_STATES ∧
    (1 : Int).toNat ≤ [(10 : Int), 20].length ∧
    ((1 : Int).toNat + 1) * toyModel.NUM_STATES ≤ [(7 : Int), 7, 7, 7, 7, 7, 7, 7].length ∧
    ((∃ m1, ode_solve_forward_euler_mem toyModel
        { u := [1, 2], parameters := [3], u_values := [7, 7, 7, 7, 7, 7, 7, 7],
          t_values := [10, 20], save_it := 0 } 1 2 = .ok m1 ∧
      ode_solve_forward_euler toyModel [1, 2] [3] [7, 7, 7, 7, 7, 7, 7, 7] [10, 20] 1 2
        = .ok (m1.u, m1.u_values) ∧
      m1.parameters = [3] ∧ m1.t_values = [10, 20] ∧
      m1.u_values.length = [(7 : Int), 7, 7, 7, 7, 7, 7, 7].length ∧
      (∀ i, i < toyModel.NUM_STATES →
        m1.u_values[i]? = [(7 : Int), 7, 7, 7, 7, 7, 7, 7][i]?) ∧
      (∀ i, ((1 : Int).toNat + 1) * toyModel.NUM_STATES ≤ i →
        m1.u_values[i]? = [(7 : Int), 7, 7, 7, 7, 7, 7, 7][i]?)) ∧
    (∃ m1, ode_solve_rush_larsen_mem toyModel
        { u := [1, 2], parameters := [3], u_values := [7, 7, 7, 7, 7, 7, 7, 7],
          t_values := [10, 20], save_it := 0 } 1 2 = .ok m1 ∧
      ode_solve_rush_larsen toyModel [1, 2] [3] [7, 7, 7, 7, 7, 7, 7, 7] [10, 20] 1 2
        = .ok (m1.u, m1.u_values) ∧
      m1.parameters = [3] ∧ m1.t_values = [10, 20] ∧
      m1.u_values.length = [(7 : Int), 7, 7, 7, 7, 7, 7, 7].length ∧
      (∀ i, i < toyModel.NUM_STATES →
        m1.u_values[i]? = [(7 : Int), 7, 7, 7, 7, 7, 7, 7][i]?) ∧
      (∀ i, ((1 : Int).toNat + 1) * toyModel.NUM_STATES ≤ i →
        m1.u_values[i]? = [(7 : Int), 7, 7, 7, 7, 7, 7, 7][i]?)) ∧
    (∀ (m2 : DriverMem Int) (n2 : Int), n2 ≤ 0 →
      (∃ m3, ode_solve_forward_euler_mem toyModel m2 n2 2 = .ok m3 ∧ m3.u = m2.u ∧
        m3.u_values = m2.u_values ∧ m3.parameters = m2.parameters ∧
        m3.t_values = m2.t_values) ∧
      (∃ m3, ode_solve_rush_larsen_mem toyModel m2 n2 2 = .ok m3 ∧ m3.u = m2.u ∧
        m3.u_values = m2.u_values ∧ m3.parameters = m2.parameters ∧
        m3.t_values = m2.t_values))) :=
  ⟨toyModel_wellSized, by decide, by decide, by decide,
    C14_driver_frame toyModel toyModel_wellSized
      { u := [1, 2], parameters := [3], u_values := [7, 7, 7, 7, 7, 7, 7, 7],
        t_values := [10, 20], save_it := 0 } 1 2 (by decide) (by decide) (by decide)⟩

theorem load_stmt_put {α : Type} (NS : Nat) (m : SamplerMem α) (i j : Int) (u1 : List α) :
    load_stmt NS i j { m with u := u1 }
      = (load_body NS m.states i j u1).map (fun u2 => { m with u := u2 }) := by
  simp only [load_stmt, load_body, bind, Except.bind, pure, Except.pure]
  cases rd Buf.states m.states (i * (NS : Int) + j) with
  | error e => rfl
  | ok x =>
    simp only []
    cases wr Buf.u u1 j x with
    | error e => rfl
    | ok u2 => rfl

theorem select_stmt_put {α : Type} (m_temp : List α) (m : SamplerMem α) (num i j : Int)
    (mon1 : List α) :
    select_stmt m_temp num i j { m with monitored := mon1 }
      = (select_body m_temp m.indices num i j mon1).map
          (fun mon2 => { m with monitored := mon2 }) := by
  simp only [select_stmt, select_body, bind, Except.bind, pure, Except.pure]
  cases rd Buf.indices m.indices j with
  | error e => rfl
  | ok ix =>
    simp only []
    cases rd Buf.m_temp m_temp ix with
    | error e => rfl
    | ok x =>
      simp only []
      cases wr Buf.monitored mon1 (i * num + j) x with
      | error e => rfl
      | ok mon2 => rfl

theorem sample_stmt_put {α : Type} (M : Model α) (m : SamplerMem α) (num i : Int)
    (s : SamplerState α) :
    sample_stmt M num i (m.put s)
      = (sample_body M m.states m.parameters m.t_values m.indices num i s).map m.put := by
  simp only [sample_stmt, sample_body, forLt, bind, Except.bind, pure, Except.pure]
  have ht : (m.put s).t_values = m.t_values := rfl
  rw [ht]
  cases rd Buf.t_values m.t_values i with
  | error e => rfl
  | ok t =>
    simp only []
    have hload := loopFrom_sim (fun u2 => ({ m.put s with u := u2 } : SamplerMem α))
      (load_stmt M.NUM_STATES i) (load_body M.NUM_STATES m.states i)
      (fun j u1 => load_stmt_put M.NUM_STATES (m.put s) i j u1)
      ((M.NUM_STATES : Int) - 0).toNat 0 s.u
    have hself : ({ m.put s with u := s.u } : SamplerMem α) = m.put s := rfl
    simp only [hself] at hload
    rw [hload]
    cases loopFrom (load_body M.NUM_STATES m.states i) ((M.NUM_STATES : Int) - 0).toNat 0
        s.u with
    | error e => rfl
    | ok u1 =>
      simp only [Except.map]
      have hsel := loopFrom_sim
        (fun mon2 => ({ ({ m.put s with u := u1 } : SamplerMem α) with monitored := mon2 } :
          SamplerMem α))
        (select_stmt (M.monitor_values t u1 m.parameters) num i)
        (select_body (M.monitor_values t u1 m.parameters) m.indices num i)
        (fun j mon1 => select_stmt_put (M.monitor_values t u1 m.parameters)
          ({ m.put s with u := u1 } : SamplerMem α) num i j mon1)
        (num - 0).toNat 0 s.monitored
      have hself2 : ({ ({ m.put s with u := u1 } : SamplerMem α) with
          monitored := s.monitored } : SamplerMem α) = { m.put s with u := u1 } := rfl
      simp only [hself2] at hsel
      refine Eq.trans hsel ?_
      cases loopFrom (select_body (M.monitor_values t u1 m.parameters) m.indices num i)
          (num - 0).toNat 0 s.monitored with
      | error e => rfl
      | ok mon1 => rfl

/-- The sampler on the memory of the call computes what `monitored_values` computes and
leaves the other buffers as they are. -/
theorem monitored_values_mem_eq {α : Type} (M : Model α) (m : SamplerMem α)
    (length num : Int) :
    monitored_values_mem M m length num
      = (match monitored_values M m.monitored m.states m.parameters m.u m.t_values length
            m.indices num with
         | .ok r => .ok { m with monitored := r.1, u := r.2 }
         | .error e => .error e) := by
  have hsim := loopFrom_sim m.put (sample_stmt M num)
    (sample_body M m.states m.parameters m.t_values m.indices num)
    (fun i s => sample_stmt_put M m num i s) length.toNat 0
    { monitored := m.monitored, u := m.u }
  have hself : m.put { monitored := m.monitored, u := m.u } = m := rfl
  rw [hself] at hsim
  rw [monitored_values_unfold]
  simp only [monitored_values_mem, forLt, sub_zero]
  rw [hsim]
  cases loopFrom (sample_body M m.states m.parameters m.t_values m.indices num) length.toNat 0
      { monitored := m.monitored, u := m.u } with
  | error e => rfl
  | ok s => rfl

/-- C12: whenever `monitored_values` returns, the saved trajectory `states`, the parameters,
the time grid and the index list are as they were before the call, and the two buffers that
are written hold what `monitored_values` computes; and with valid indices and buffers of
sufficient size the call does return. -/
theorem C12_sampler_inputs_unchanged {α : Type} (M : Model α) (hM : M.WellSized)
    (m : SamplerMem α) :
    (∀ (length num : Int) (m1 : SamplerMem α),
      monitored_values_mem M m length num = .ok m1 →
      m1.states = m.states ∧ m1.parameters = m.parameters ∧ m1.t_values = m.t_values ∧
      m1.indices = m.indices ∧
      monitored_values M m.monitored m.states m.parameters m.u m.t_values length m.indices num
        = .ok (m1.monitored, m1.u)) ∧
    (∀ (L num : Nat), m.u.length = M.NUM_STATES → L * M.NUM_STATES ≤ m.states.length →
      L ≤ m.t_values.length → L * num ≤ m.monitored.length → m.indices.length = num →
      (∀ ix ∈ m.indices, 0 ≤ ix ∧ ix < (M.NUM_MONITORED : Int)) →
      ∃ m1, monitored_values_mem M m (L : Int) (num : Int) = .ok m1) := by
  constructor
  · intro length num m1 hrun
    rw [monitored_values_mem_eq] at hrun
    cases hr : monitored_values M m.monitored m.states m.parameters m.u m.t_values length
        m.indices num with
    | error e =>
      rw [hr] at hrun
      exact Except.noConfusion hrun
    | ok r =>
      rw [hr] at hrun
      simp only [Except.ok.injEq] at hrun
      rw [← hrun]
      exact ⟨rfl, rfl, rfl, rfl, rfl⟩
  · intro L num hu hs ht hm hnum hrange
    obtain ⟨mon1, u1, hrun, -⟩ := sampler_entries M hM m.monitored m.states m.parameters m.u
      m.t_values L m.indices num hu hs ht hm hnum hrange
    refine ⟨{ m with monitored := mon1, u := u1 }, ?_⟩
    rw [monitored_values_mem_eq, hrun]

/-- C12 at the toy model: two samples, indices `[2, 0]`. -/
theorem C12_sampler_inputs_unchanged_witness :
    toyModel.WellSized ∧
    monitored_values_mem toyModel
      { monitored := [9, 9, 9, 9, 9], states := [1, 2, 3, 4], parameters := [3], u := [0, 0],
        t_values := [10, 20], indices := [2, 0] } 2 2
      = .ok { monitored := [2, 3, 4, 7, 9], states := [1, 2, 3, 4], parameters := [3],
              u := [3, 4], t_values := [10, 20], indices := [2, 0] } ∧
    ((∀ (length num : Int) (m1 : SamplerMem Int),
      monitored_values_mem toyModel
        { monitored := [9, 9, 9, 9, 9], states := [1, 2, 3, 4], parameters := [3], u := [0, 0],
          t_values := [10, 20], indices := [2, 0] } length num = .ok m1 →
      m1.states = [1, 2, 3, 4] ∧ m1.parameters = [3] ∧ m1.t_values = [10, 20] ∧
      m1.indices = [2, 0] ∧
      monitored_values toyModel [9, 9, 9, 9, 9] [1, 2, 3, 4] [3] [0, 0] [10, 20] length [2, 0]
        num = .ok (m1.monitored, m1.u)) ∧
    (∀ (L num : Nat), [(0 : Int), 0].length = toyModel.NUM_STATES →
      L * toyModel.NUM_STATES ≤ [(1 : Int), 2, 3, 4].length →
      L ≤ [(10 : Int), 20].length → L * num ≤ [(9 : Int), 9, 9, 9, 9].length →
      [(2 : Int), 0].length = num →
      (∀ ix ∈ [(2 : Int), 0], 0 ≤ ix ∧ ix < (toyModel.NUM_MONITORED : Int)) →
      ∃ m1, monitored_values_mem toyModel
        { monitored := [9, 9, 9, 9, 9], states := [1, 2, 3, 4], parameters := [3], u := [0, 0],
          t_values := [10, 20], indices := [2, 0] } (L : Int) (num : Int) = .ok m1)) :=
  ⟨toyModel_wellSized, rfl,
    C12_sampler_inputs_unchanged toyModel toyModel_wellSized
      { monitored := [9, 9, 9, 9, 9], states := [1, 2, 3, 4], parameters := [3], u := [0, 0],
        t_values := [10, 20], indices := [2, 0] }⟩

/-! ## The two drivers as one generic driver -/

theorem stepped_agree {α : Type} (stepA stepB : List α → α → α → List α → List α)
    (parameters t_values : List α) (dt : α) (u : List α) (n : Nat)
    (h : ∀ k t, k < n → t_values[k]? = some t →
      stepA (stepped stepA parameters t_values dt u k) t dt parameters
        = stepB (stepped stepA parameters t_values dt u k) t dt parameters) :
    ∀ k, k ≤ n → stepped stepA parameters t_values dt u k
      = stepped stepB parameters t_values dt u k := by
  intro k
  induction k with
  | zero => intro _; rfl
  | succ k ih =>
    intro hk
    have ih1 := ih (by omega)
    simp only [stepped]
    cases ht : t_values[k]? with
    | none => simpa using ih1
    | some t =>
      simp only []
      rw [← ih1]
      exact h k t (by omega) ht

/-- C15: each driver is the generic driver `ode_solve` at its model step; hence when the
Euler step and the Rush-Larsen step agree (at the run's `dt` and parameters) the two drivers
give the same outcome on every input, and with buffers of sufficient size it is enough that
the two steps agree on the states and times the run visits: both drivers then return the same
final state and the same trajectory buffer. -/
theorem C15_drivers_differ_only_in_step {α : Type} (M : Model α) (hM : M.WellSized)
    (u parameters u_values t_values : List α) (num_timesteps : Int) (dt : α) :
    ode_solve_forward_euler M u parameters u_values t_values num_timesteps dt
      = ode_solve M.forward_explicit_euler M.NUM_STATES u parameters u_values t_values
          num_timesteps dt ∧
    ode_solve_rush_larsen M u parameters u_values t_values num_timesteps dt
      = ode_solve M.forward_generalized_rush_larsen M.NUM_STATES u parameters u_values
          t_values num_timesteps dt ∧
    ((∀ v t, M.forward_explicit_euler v t dt parameters
        = M.forward_generalized_rush_larsen v t dt parameters) →
      ode_solve_forward_euler M u parameters u_values t_values num_timesteps dt
        = ode_solve_rush_larsen M u parameters u_values t_values num_timesteps dt) ∧
    (u.length = M.NUM_STATES → num_timesteps.toNat ≤ t_values.length →
      (num_timesteps.toNat + 1) * M.NUM_STATES ≤ u_values.length →
      (∀ k t, k < num_timesteps.toNat → t_values[k]? = some t →
        M.forward_explicit_euler
            (stepped M.forward_explicit_euler parameters t_values dt u k) t dt parameters
          = M.forward_generalized_rush_larsen
            (stepped M.forward_explicit_euler parameters t_values dt u k) t dt parameters) →
      ∃ u1 uv1,
        ode_solve_forward_euler M u parameters u_values t_values num_timesteps dt
          = .ok (u1, uv1) ∧
        ode_solve_rush_larsen M u parameters u_values t_values num_timesteps dt
          = .ok (u1, uv1)) := by
  refine ⟨rfl, rfl, ?_, ?_⟩
  · intro hsame
    have hbody : euler_body M parameters t_values dt
        = rush_larsen_body M parameters t_values dt := by
      funext it s
      simp only [euler_body, rush_larsen_body, hsame]
    simp only [ode_solve_forward_euler, ode_solve_rush_larsen, hbody]
  · intro hu ht huv hvisit
    obtain ⟨uvA, hA, -, hAv⟩ := driver_run M.forward_explicit_euler M.NUM_STATES parameters
      t_values dt u u_values num_timesteps.toNat (fun v t hv => hM.1 v t dt parameters hv) hu
      ht huv
    obtain ⟨uvB, hB, -, hBv⟩ := driver_run M.forward_generalized_rush_larsen M.NUM_STATES
      parameters t_values dt u u_values num_timesteps.toNat
      (fun v t hv => hM.2.1 v t dt parameters hv) hu ht huv
    have hst := stepped_agree M.forward_explicit_euler M.forward_generalized_rush_larsen
      parameters t_values dt u num_timesteps.toNat hvisit
    have huvAB : uvB = uvA := by
      apply List.ext_getElem?
      intro i
      rw [hAv i, hBv i]
      by_cases hin : M.NUM_STATES ≤ i ∧ i < (num_timesteps.toNat + 1) * M.NUM_STATES
      · rw [if_pos hin, if_pos hin]
        have hdiv : i / M.NUM_STATES ≤ num_timesteps.toNat := by
          have hpos : 0 < M.NUM_STATES := by
            rcases Nat.eq_zero_or_pos M.NUM_STATES with h0 | hp
            · rw [h0] at hin; omega
            · exact hp
          have := (Nat.div_lt_iff_lt_mul hpos).mpr hin.2
          omega
        rw [hst _ hdiv]
      · rw [if_neg hin, if_neg hin]
    refine ⟨stepped M.forward_explicit_euler parameters t_values dt u num_timesteps.toNat,
      uvA, ?_, ?_⟩
    · rw [forward_euler_unfold, hA]
    · rw [rush_larsen_unfold, hB, huvAB, hst _ (Nat.le_refl _)]

/-- C15 at the linear model, whose two steps are the same update. -/
theorem C15_drivers_differ_only_in_step_witness :
    (linearModel (1 / 2 : ℚ)).WellSized ∧
    (∀ (v : List ℚ) (t : ℚ), (linearModel (1 / 2 : ℚ)).forward_explicit_euler v t 1 []
      = (linearModel (1 / 2 : ℚ)).forward_generalized_rush_larsen v t 1 []) ∧
    (ode_solve_forward_euler (linearModel (1 / 2 : ℚ)) [8] [] [8, 0, 0] [0, 1] 2 1
      = ode_solve (linearModel (1 / 2 : ℚ)).forward_explicit_euler
          (linearModel (1 / 2 : ℚ)).NUM_STATES [8] [] [8, 0, 0] [0, 1] 2 1 ∧
    ode_solve_rush_larsen (linearModel (1 / 2 : ℚ)) [8] [] [8, 0, 0] [0, 1] 2 1
      = ode_solve (linearModel (1 / 2 : ℚ)).forward_generalized_rush_larsen
          (linearModel (1 / 2 : ℚ)).NUM_STATES [8] [] [8, 0, 0] [0, 1] 2 1 ∧
    ((∀ v t, (linearModel (1 / 2 : ℚ)).forward_explicit_euler v t 1 []
        = (linearModel (1 / 2 : ℚ)).forward_generalized_rush_larsen v t 1 []) →
      ode_solve_forward_euler (linearModel (1 / 2 : ℚ)) [8] [] [8, 0, 0] [0, 1] 2 1
        = ode_solve_rush_larsen (linearModel (1 / 2 : ℚ)) [8] [] [8, 0, 0] [0, 1] 2 1) ∧
    ([(8 : ℚ)].length = (linearModel (1 / 2 : ℚ)).NUM_STATES →
      (2 : Int).toNat ≤ [(0 : ℚ), 1].length →
      ((2 : Int).toNat + 1) * (linearModel (1 / 2 : ℚ)).NUM_STATES ≤ [(8 : ℚ), 0, 0].length →
      (∀ k t, k < (2 : Int).toNat → [(0 : ℚ), 1][k]? = some t →
        (linearModel (1 / 2 : ℚ)).forward_explicit_euler
            (stepped (linearModel (1 / 2 : ℚ)).forward_explicit_euler [] [0, 1] 1 [8] k) t 1 []
          = (linearModel (1 / 2 : ℚ)).forward_generalized_rush_larsen
            (stepped (linearModel (1 / 2 : ℚ)).forward_explicit_euler [] [0, 1] 1 [8] k) t 1
              []) →
      ∃ u1 uv1,
        ode_solve_forward_euler (linearModel (1 / 2 : ℚ)) [8] [] [8, 0, 0] [0, 1] 2 1
          = .ok (u1, uv1) ∧
        ode_solve_rush_larsen (linearModel (1 / 2 : ℚ)) [8] [] [8, 0, 0] [0, 1] 2 1
          = .ok (u1, uv1))) :=
  have hW : (linearModel (1 / 2 : ℚ)).WellSized :=
    ⟨fun u _ _ _ hu => by simpa [linearModel] using hu,
     fun u _ _ _ hu => by simpa [linearModel] using hu,
     fun _ u _ hu => by simpa [linearModel] using hu⟩
  ⟨hW, fun _ _ => rfl,
    C15_drivers_differ_only_in_step (linearModel (1 / 2 : ℚ)) hW [8] [] [8, 0, 0] [0, 1] 2 1⟩

/-! ## The monitor sampler: the scratch state -/

/-- C17: for `length ≥ 1` (valid indices, buffers of sufficient size) the call returns with
the scratch state `u` equal to the last row of the trajectory,
`u[j] = states[(length - 1) * NUM_STATES + j]` for every `j < NUM_STATES`, whatever `u` held
before; for `length ≤ 0`, on every input, the call returns `u` and the output buffer
unchanged. -/
theorem C17_sampler_overwrites_scratch {α : Type} (M : Model α) (hM : M.WellSized)
    (monitored states parameters u t_values : List α) (L : Nat) (indices : List Int)
    (num : Nat) (hL : 1 ≤ L) (hu : u.length = M.NUM_STATES)
    (hs : L * M.NUM_STATES ≤ states.length) (ht : L ≤ t_values.length)
    (hm : L * num ≤ monitored.length) (hnum : indices.length = num)
    (hrange : ∀ ix ∈ indices, 0 ≤ ix ∧ ix < (M.NUM_MONITORED : Int)) :
    (∃ mon1 u1, monitored_values M monitored states parameters u t_values (L : Int) indices
        (num : Int) = .ok (mon1, u1) ∧
      u1 = row M.NUM_STATES states (L - 1) ∧ u1.length = M.NUM_STATES ∧
      ∀ j, j < M.NUM_STATES → ∃ x, u1[j]? = some x ∧
        states[(L - 1) * M.NUM_STATES + j]? = some x) ∧
    (∀ (mon2 states2 parameters2 u2 t2 : List α) (indices2 : List Int) (length2 num2 : Int),
      length2 ≤ 0 →
      monitored_values M mon2 states2 parameters2 u2 t2 length2 indices2 num2
        = .ok (mon2, u2)) := by
  constructor
  · have hgood := indices_good_of_mem indices num M.NUM_MONITORED hnum hrange
    obtain ⟨s3, h3, -, h3u, -⟩ := sampler_loop_spec M monitored states parameters u t_values L
      indices num hM.2.2 hu hs ht hm hgood
    rw [if_neg (by omega)] at h3u
    have hrows : (L - 1 + 1) * M.NUM_STATES ≤ L * M.NUM_STATES :=
      Nat.mul_le_mul_right _ (by omega)
    have hsum : (L - 1 + 1) * M.NUM_STATES = (L - 1) * M.NUM_STATES + M.NUM_STATES := by ring
    have hlen : (row M.NUM_STATES states (L - 1)).length = M.NUM_STATES := by
      simp only [row, List.length_take, List.length_drop]
      omega
    refine ⟨s3.monitored, s3.u, ?_, h3u, by rw [h3u, hlen], ?_⟩
    · rw [monitored_values_unfold, Int.toNat_ofNat, h3]
    · intro j hj
      have hjs : (L - 1) * M.NUM_STATES + j < states.length := by omega
      refine ⟨states[(L - 1) * M.NUM_STATES + j], ?_, List.getElem?_eq_getElem hjs⟩
      rw [h3u, getElem?_row, if_pos hj, List.getElem?_eq_getElem hjs]
  · intro mon2 states2 parameters2 u2 t2 indices2 length2 num2 hle
    have h0 : length2.toNat = 0 := by omega
    rw [monitored_values_unfold, h0]
    rfl

/-- C17 at the toy model: two samples, scratch state `[0, 0]` before the call. -/
theorem C17_sampler_overwrites_scratch_witness :
    toyModel.WellSized ∧ 1 ≤ 2 ∧ [(0 : Int), 0].length = toyModel.NUM_STATES ∧
    2 * toyModel.NUM_STATES ≤ [(1 : Int), 2, 3, 4].length ∧
    2 ≤ [(10 : Int), 20].length ∧ 2 * 2 ≤ [(9 : Int), 9, 9, 9, 9].length ∧
    [(2 : Int), 0].length = 2 ∧
    (∀ ix ∈ [(2 : Int), 0], 0 ≤ ix ∧ ix < (toyModel.NUM_MONITORED : Int)) ∧
    ((∃ mon1 u1, monitored_values toyModel [9, 9, 9, 9, 9] [1, 2, 3, 4] [3] [0, 0] [10, 20]
        ((2 : Nat) : Int) [2, 0] ((2 : Nat) : Int) = .ok (mon1, u1) ∧
      u1 = row toyModel.NUM_STATES [1, 2, 3, 4] (2 - 1) ∧ u1.length = toyModel.NUM_STATES ∧
      ∀ j, j < toyModel.NUM_STATES → ∃ x, u1[j]? = some x ∧
        [(1 : Int), 2, 3, 4][(2 - 1) * toyModel.NUM_STATES + j]? = some x) ∧
    (∀ (mon2 states2 parameters2 u2 t2 : List Int) (indices2 : List Int)
      (length2 num2 : Int), length2 ≤ 0 →
      monitored_values toyModel mon2 states2 parameters2 u2 t2 length2 indices2 num2
        = .ok (mon2, u2))) :=
  ⟨toyModel_wellSized, by decide, by decide, by decide, by decide, by decide, by decide,
    by decide,
    C17_sampler_overwrites_scratch toyModel toyModel_wellSized [9, 9, 9, 9, 9] [1, 2, 3, 4]
      [3] [0, 0] [10, 20] 2 [2, 0] 2 (by decide) (by decide) (by decide) (by decide)
      (by decide) (by decide) (by decide)⟩

/-! ## Shifting a run by whole samples -/

theorem row_drop {α : Type} (w : Nat) (buf : List α) (a i : Nat) :
    row w (buf.drop (a * w)) i = row w buf (a + i) := by
  have e : a * w + i * w = (a + i) * w := by ring
  simp only [row, List.drop_drop, e]

theorem stepped_drop {α : Type} (step : List α → α → α → List α → List α)
    (parameters t_values : List α) (dt : α) (u : List α) (n k : Nat) :
    stepped step parameters (t_values.drop n) dt (stepped step parameters t_values dt u n) k
      = stepped step parameters t_values dt u (n + k) := by
  induction k with
  | zero => rfl
  | succ k ih =>
    have e : n + (k + 1) = (n + k) + 1 := by omega
    rw [e]
    simp only [stepped, List.getElem?_drop, ih]

theorem pos_of_window (w a i : Nat) (h1 : w ≤ i) (h2 : i < a * w) : 0 < w := by
  rcases Nat.eq_zero_or_pos w with h0 | hp
  · rw [h0] at h2
    omega
  · exact hp

/-- Running a driver loop for `n` steps and then for `m` more steps from the resulting
state, on the grid and the trajectory buffer shifted by `n` samples, is running it for
`n + m` steps. -/
theorem driver_restart {α : Type} (step : List α → α → α → List α → List α) (NS : Nat)
    (parameters t_values : List α) (dt : α) (u u_values : List α) (n m : Nat)
    (hstep : ∀ v t, v.length = NS → (step v t dt parameters).length = NS)
    (hu : u.length = NS)
    (ht : n + m ≤ t_values.length) (huv : (n + m + 1) * NS ≤ u_values.length) :
    ∃ u1 uv1 u2 uv2,
      (match loopFrom (step_body step NS parameters t_values dt) n 1
            { save_it := 1, u := u, u_values := u_values } with
         | .ok s => (.ok (s.u, s.u_values) : Except Buf (List α × List α))
         | .error e => .error e) = .ok (u1, uv1) ∧
      (match loopFrom (step_body step NS parameters (t_values.drop n) dt) m 1
            { save_it := 1, u := u1, u_values := uv1.drop (n * NS) } with
         | .ok s => (.ok (s.u, s.u_values) : Except Buf (List α × List α))
         | .error e => .error e) = .ok (u2, uv2) ∧
      (match loopFrom (step_body step NS parameters t_values dt) (n + m) 1
            { save_it := 1, u := u, u_values := u_values } with
         | .ok s => (.ok (s.u, s.u_values) : Except Buf (List α × List α))
         | .error e => .error e) = .ok (u2, uv1.take (n * NS) ++ uv2) := by
  have e1 : (n + 1) * NS = n * NS + NS := by ring
  have e2 : (m + 1) * NS = m * NS + NS := by ring
  have e3 : (n + m + 1) * NS = n * NS + m * NS + NS := by ring
  obtain ⟨uv1, h1, h1l, h1v⟩ := driver_run step NS parameters t_values dt u u_values n hstep
    hu (by omega) (by omega)
  have hu1 : (stepped step parameters t_values dt u n).length = NS :=
    stepped_length step NS parameters t_values dt u hstep hu n
  obtain ⟨uv2, h2, h2l, h2v⟩ := driver_run step NS parameters (t_values.drop n) dt
    (stepped step parameters t_values dt u n) (uv1.drop (n * NS)) m hstep hu1
    (by rw [List.length_drop]; omega) (by rw [List.length_drop]; omega)
  obtain ⟨uvF, hF, hFl, hFv⟩ := driver_run step NS parameters t_values dt u u_values (n + m)
    hstep hu ht huv
  refine ⟨_, uv1, _, uv2, h1, h2, ?_⟩
  rw [hF, stepped_drop]
  congr 2
  apply List.ext_getElem?
  intro i
  have htl : (uv1.take (n * NS)).length = n * NS := by
    rw [List.length_take]
    omega
  rw [hFv i]
  by_cases hlow : i < n * NS
  · rw [List.getElem?_append_left (by omega), List.getElem?_take, if_pos hlow, h1v i]
    by_cases hNS : NS ≤ i
    · rw [if_pos ⟨hNS, by omega⟩, if_pos ⟨hNS, by omega⟩]
    · rw [if_neg (by omega), if_neg (by omega)]
  · rw [List.getElem?_append_right (by omega), htl, h2v (i - n * NS), List.getElem?_drop]
    have hi : n * NS + (i - n * NS) = i := by omega
    rw [hi, h1v i]
    by_cases hwin : NS ≤ i - n * NS ∧ i - n * NS < (m + 1) * NS
    · have hpos : 0 < NS := pos_of_window NS (m + 1) (i - n * NS) hwin.1 hwin.2
      have hdiv : i / NS = n + (i - n * NS) / NS := by
        conv_lhs => rw [← hi]
        rw [Nat.add_comm (n * NS), Nat.add_mul_div_right _ _ hpos, Nat.add_comm]
      have hmod : i % NS = (i - n * NS) % NS := by
        conv_lhs => rw [← hi]
        rw [Nat.add_comm (n * NS), Nat.add_mul_mod_self_right]
      rw [if_pos hwin, if_pos ⟨by omega, by omega⟩, stepped_drop, hdiv, hmod]
    · rw [if_neg hwin]
      by_cases hrow : i - n * NS < NS
      · by_cases hNS : NS ≤ i
        · rw [if_pos ⟨hNS, by omega⟩, if_pos ⟨hNS, by omega⟩]
        · rw [if_neg (by omega), if_neg (by omega)]
      · rw [if_neg (by omega), if_neg (by omega)]

/-- C16: for both drivers, running `n` steps from `u` and then `m` more steps from the
resulting current state, with the grid shifted by `n` entries and the trajectory buffer
shifted by `n` rows (so that its row 0 is row `n` of the first run), gives the final state of
the run of `n + m` steps, and the trajectory buffer of that run is the first `n` rows of the
first run followed by the buffer of the second run: rows `1 .. n` come from the first run and
rows `n + 1 .. n + m` from the second. -/
theorem C16_driver_restartable {α : Type} (M : Model α) (hM : M.WellSized)
    (u parameters u_values t_values : List α) (n m : Nat) (dt : α)
    (hu : u.length = M.NUM_STATES) (ht : n + m ≤ t_values.length)
    (huv : (n + m + 1) * M.NUM_STATES ≤ u_values.length) :
    (∃ u1 uv1 u2 uv2,
      ode_solve_forward_euler M u parameters u_values t_values (n : Int) dt = .ok (u1, uv1) ∧
      ode_solve_forward_euler M u1 parameters (uv1.drop (n * M.NUM_STATES)) (t_values.drop n)
        (m : Int) dt = .ok (u2, uv2) ∧
      ode_solve_forward_euler M u parameters u_values t_values ((n + m : Nat) : Int) dt
        = .ok (u2, uv1.take (n * M.NUM_STATES) ++ uv2)) ∧
    (∃ u1 uv1 u2 uv2,
      ode_solve_rush_larsen M u parameters u_values t_values (n : Int) dt = .ok (u1, uv1) ∧
      ode_solve_rush_larsen M u1 parameters (uv1.drop (n * M.NUM_STATES)) (t_values.drop n)
        (m : Int) dt = .ok (u2, uv2) ∧
      ode_solve_rush_larsen M u parameters u_values t_values ((n + m : Nat) : Int) dt
        = .ok (u2, uv1.take (n * M.NUM_STATES) ++ uv2)) := by
  constructor
  · obtain ⟨u1, uv1, u2, uv2, h1, h2, h3⟩ := driver_restart M.forward_explicit_euler
      M.NUM_STATES parameters t_values dt u u_values n m
      (fun v t hv => hM.1 v t dt parameters hv) hu ht huv
    refine ⟨u1, uv1, u2, uv2, ?_, ?_, ?_⟩
    · rw [forward_euler_unfold, Int.toNat_ofNat, h1]
    · rw [forward_euler_unfold, Int.toNat_ofNat, h2]
    · rw [forward_euler_unfold, Int.toNat_ofNat, h3]
  · obtain ⟨u1, uv1, u2, uv2, h1, h2, h3⟩ := driver_restart M.forward_generalized_rush_larsen
      M.NUM_STATES parameters t_values dt u u_values n m
      (fun v t hv => hM.2.1 v t dt parameters hv) hu ht huv
    refine ⟨u1, uv1, u2, uv2, ?_, ?_, ?_⟩
    · rw [rush_larsen_unfold, Int.toNat_ofNat, h1]
    · rw [rush_larsen_unfold, Int.toNat_ofNat, h2]
    · rw [rush_larsen_unfold, Int.toNat_ofNat, h3]

/-- C16 at the toy model: one step, then two more. -/
theorem C16_driver_restartable_witness :
    toyModel.WellSized ∧ [(1 : Int), 2].length = toyModel.NUM_STATES ∧
    1 + 2 ≤ [(10 : Int), 20, 30, 40].length ∧
    (1 + 2 + 1) * toyModel.NUM_STATES ≤ [(1 : Int), 2, 0, 0, 0, 0, 0, 0].length ∧
    ((∃ u1 uv1 u2 uv2,
      ode_solve_forward_euler toyModel [1, 2] [3] [1, 2, 0, 0, 0, 0, 0, 0] [10, 20, 30, 40]
        ((1 : Nat) : Int) 2 = .ok (u1, uv1) ∧
      ode_solve_forward_euler toyModel u1 [3] (uv1.drop (1 * toyModel.NUM_STATES))
        ([(10 : Int), 20, 30, 40].drop 1) ((2 : Nat) : Int) 2 = .ok (u2, uv2) ∧
      ode_solve_forward_euler toyModel [1, 2] [3] [1, 2, 0, 0, 0, 0, 0, 0] [10, 20, 30, 40]
        ((1 + 2 : Nat) : Int) 2 = .ok (u2, uv1.take (1 * toyModel.NUM_STATES) ++ uv2)) ∧
    (∃ u1 uv1 u2 uv2,
      ode_solve_rush_larsen toyModel [1, 2] [3] [1, 2, 0, 0, 0, 0, 0, 0] [10, 20, 30, 40]
        ((1 : Nat) : Int) 2 = .ok (u1, uv1) ∧
      ode_solve_rush_larsen toyModel u1 [3] (uv1.drop (1 * toyModel.NUM_STATES))
        ([(10 : Int), 20, 30, 40].drop 1) ((2 : Nat) : Int) 2 = .ok (u2, uv2) ∧
      ode_solve_rush_larsen toyModel [1, 2] [3] [1, 2, 0, 0, 0, 0, 0, 0] [10, 20, 30, 40]
        ((1 + 2 : Nat) : Int) 2 = .ok (u2, uv1.take (1 * toyModel.NUM_STATES) ++ uv2))) :=
  ⟨toyModel_wellSized, by decide, by decide, by decide,
    C16_driver_restartable toyModel toyModel_wellSized [1, 2] [3] [1, 2, 0, 0, 0, 0, 0, 0]
      [10, 20, 30, 40] 1 2 2 (by decide) (by decide) (by decide)⟩

/-! ## The monitor sampler: independence of the samples -/

theorem row_append_left {α : Type} (w : Nat) (A B : List α) (i : Nat)
    (h : (i + 1) * w ≤ A.length) : row w (A ++ B) i = row w A i := by
  have e : (i + 1) * w = i * w + w := by ring
  apply List.ext_getElem?
  intro j
  rw [getElem?_row, getElem?_row]
  by_cases hj : j < w
  · rw [if_pos hj, if_pos hj, List.getElem?_append_left (by omega)]
  · rw [if_neg hj, if_neg hj]

theorem monitor_at_congr {α : Type} (M : Model α) (s1 s2 parameters t1 t2 : List α) (i : Nat)
    (hrow : row M.NUM_STATES s1 i = row M.NUM_STATES s2 i) (ht : t1[i]? = t2[i]?) :
    monitor_at M s1 parameters t1 i = monitor_at M s2 parameters t2 i := by
  simp only [monitor_at, hrow, ht]

theorem monitor_at_drop {α : Type} (M : Model α) (states parameters t_values : List α)
    (a i : Nat) :
    monitor_at M (states.drop (a * M.NUM_STATES)) parameters (t_values.drop a) i
      = monitor_at M states parameters t_values (a + i) := by
  simp only [monitor_at, row_drop, List.getElem?_drop]

/-- Outcome of a call of the sampler with valid indices, entry by entry. -/
theorem sampler_pointwise {α : Type} (M : Model α) (hM : M.WellSized)
    (monitored states parameters u t_values : List α) (L : Nat) (indices : List Int)
    (num : Nat) (hu : u.length = M.NUM_STATES) (hs : L * M.NUM_STATES ≤ states.length)
    (ht : L ≤ t_values.length) (hm : L * num ≤ monitored.length)
    (hnum : indices.length = num)
    (hrange : ∀ ix ∈ indices, 0 ≤ ix ∧ ix < (M.NUM_MONITORED : Int)) :
    ∃ mon1 u1, monitored_values M monitored states parameters u t_values (L : Int) indices
        (num : Int) = .ok (mon1, u1) ∧
      mon1.length = monitored.length ∧
      ∀ q, mon1[q]? =
        if q < L * num then
          pick (monitor_at M states parameters t_values (q / num)) indices (q % num)
        else monitored[q]? := by
  have hgood := indices_good_of_mem indices num M.NUM_MONITORED hnum hrange
  obtain ⟨s3, h3, h3l, -, h3v⟩ := sampler_loop_spec M monitored states parameters u t_values L
    indices num hM.2.2 hu hs ht hm hgood
  refine ⟨s3.monitored, s3.u, ?_, h3l, h3v⟩
  rw [monitored_values_unfold, Int.toNat_ofNat, h3]

/-- Sampling `A ++ B` is sampling `A` and then `B`. -/
theorem sampler_concat {α : Type} (M : Model α) (hM : M.WellSized)
    (parameters : List α) (indices : List Int) (num : Nat)
    (A Ta outA uA : List α) (La : Nat) (B Tb outB uB : List α) (Lb : Nat)
    (hnum : indices.length = num)
    (hrange : ∀ ix ∈ indices, 0 ≤ ix ∧ ix < (M.NUM_MONITORED : Int))
    (hA : A.length = La * M.NUM_STATES) (hTa : Ta.length = La)
    (houtA : outA.length = La * num) (huA : uA.length = M.NUM_STATES)
    (hB : Lb * M.NUM_STATES ≤ B.length) (hTb : Lb ≤ Tb.length)
    (houtB : Lb * num ≤ outB.length) (huB : uB.length = M.NUM_STATES) :
    ∃ monA uA1 monB uB1 uAB,
      monitored_values M outA A parameters uA Ta (La : Int) indices (num : Int)
        = .ok (monA, uA1) ∧
      monitored_values M outB B parameters uB Tb (Lb : Int) indices (num : Int)
        = .ok (monB, uB1) ∧
      monitored_values M (outA ++ outB) (A ++ B) parameters uA (Ta ++ Tb)
        ((La + Lb : Nat) : Int) indices (num : Int) = .ok (monA ++ monB, uAB) ∧
      ∀ q, (monA ++ monB)[q]? =
        if q < (La + Lb) * num then
          pick (monitor_at M (A ++ B) parameters (Ta ++ Tb) (q / num)) indices (q % num)
        else (outA ++ outB)[q]? := by
  have eS : (La + Lb) * M.NUM_STATES = La * M.NUM_STATES + Lb * M.NUM_STATES := by ring
  have eM : (La + Lb) * num = La * num + Lb * num := by ring
  obtain ⟨monA, uA1, hrA, hlA, hvA⟩ := sampler_pointwise M hM outA A parameters uA Ta La
    indices num huA (by omega) (by omega) (by omega) hnum hrange
  obtain ⟨monB, uB1, hrB, hlB, hvB⟩ := sampler_pointwise M hM outB B parameters uB Tb Lb
    indices num huB hB hTb houtB hnum hrange
  obtain ⟨monAB, uAB, hrAB, hlAB, hvAB⟩ := sampler_pointwise M hM (outA ++ outB) (A ++ B)
    parameters uA (Ta ++ Tb) (La + Lb) indices num huA
    (by rw [List.length_append]; omega) (by rw [List.length_append]; omega)
    (by rw [List.length_append]; omega) hnum hrange
  have heq : monAB = monA ++ monB := by
    apply List.ext_getElem?
    intro q
    rw [hvAB q]
    by_cases hlow : q < La * num
    · have hpos : 0 < num := by
        rcases Nat.eq_zero_or_pos num with h0 | hp
        · rw [h0] at hlow; omega
        · exact hp
      have hi : q / num < La := (Nat.div_lt_iff_lt_mul hpos).mpr hlow
      have hrowsA : (q / num + 1) * M.NUM_STATES ≤ La * M.NUM_STATES :=
        Nat.mul_le_mul_right _ (by omega)
      have hR : (monA ++ monB)[q]? = monA[q]? := List.getElem?_append_left (by omega)
      rw [hR, hvA q, if_pos hlow, if_pos (by omega)]
      rw [monitor_at_congr M (A ++ B) A parameters (Ta ++ Tb) Ta (q / num)
        (row_append_left _ A B _ (by omega)) (List.getElem?_append_left (by omega))]
    · have hq : La * num + (q - La * num) = q := by omega
      have hR : (monA ++ monB)[q]? = monB[q - monA.length]? :=
        List.getElem?_append_right (by omega)
      have hO : (outA ++ outB)[q]? = outB[q - outA.length]? :=
        List.getElem?_append_right (by omega)
      rw [hR, hO, hlA, houtA, hvB (q - La * num)]
      by_cases hin : q - La * num < Lb * num
      · have hpos : 0 < num := by
          rcases Nat.eq_zero_or_pos num with h0 | hp
          · rw [h0] at hin; omega
          · exact hp
        have hdiv : q / num = La + (q - La * num) / num := by
          conv_lhs => rw [← hq]
          rw [Nat.add_comm (La * num), Nat.add_mul_div_right _ _ hpos, Nat.add_comm]
        have hmod : q % num = (q - La * num) % num := by
          conv_lhs => rw [← hq]
          rw [Nat.add_comm (La * num), Nat.add_mul_mod_self_right]
        have hshift := monitor_at_drop M (A ++ B) parameters (Ta ++ Tb) La
          ((q - La * num) / num)
        rw [List.drop_left' hA, List.drop_left' hTa] at hshift
        rw [if_pos hin, if_pos (by omega), hdiv, hmod, hshift]
      · rw [if_neg hin, if_neg (by omega)]
  rw [heq] at hrAB hvAB
  exact ⟨monA, uA1, monB, uB1, uAB, hrA, hrB, hrAB, hvAB⟩

/-- C13: for trajectories `A` (`La` samples, grid `Ta`) and `B` (`Lb` samples, grid `Tb`),
the same parameters and index list, the output of `monitored_values` on `A ++ B` with grid
`Ta ++ Tb` is the output on `(A, Ta)` followed by the output on `(B, Tb)`; hence sampling
the `m` samples that start at sample `a` of the concatenated trajectory gives rows
`a .. a + m - 1` of the full output. -/
theorem C13_sampler_concatenation {α : Type} (M : Model α) (hM : M.WellSized)
    (parameters : List α) (indices : List Int) (num : Nat)
    (A Ta outA uA : List α) (La : Nat) (B Tb outB uB : List α) (Lb : Nat)
    (hnum : indices.length = num)
    (hrange : ∀ ix ∈ indices, 0 ≤ ix ∧ ix < (M.NUM_MONITORED : Int))
    (hA : A.length = La * M.NUM_STATES) (hTa : Ta.length = La)
    (houtA : outA.length = La * num) (huA : uA.length = M.NUM_STATES)
    (hB : Lb * M.NUM_STATES ≤ B.length) (hTb : Lb ≤ Tb.length)
    (houtB : Lb * num ≤ outB.length) (huB : uB.length = M.NUM_STATES) :
    ∃ monA uA1 monB uB1 uAB,
      monitored_values M outA A parameters uA Ta (La : Int) indices (num : Int)
        = .ok (monA, uA1) ∧
      monitored_values M outB B parameters uB Tb (Lb : Int) indices (num : Int)
        = .ok (monB, uB1) ∧
      monitored_values M (outA ++ outB) (A ++ B) parameters uA (Ta ++ Tb)
        ((La + Lb : Nat) : Int) indices (num : Int) = .ok (monA ++ monB, uAB) ∧
      ∀ (a m : Nat) (out2 u2 : List α), a + m ≤ La + Lb → m * num ≤ out2.length →
        u2.length = M.NUM_STATES →
        ∃ mon2 u3,
          monitored_values M out2 ((A ++ B).drop (a * M.NUM_STATES)) parameters u2
            ((Ta ++ Tb).drop a) (m : Int) indices (num : Int) = .ok (mon2, u3) ∧
          ∀ i, i < m → row num mon2 i = row num (monA ++ monB) (a + i) := by
  obtain ⟨monA, uA1, monB, uB1, uAB, hrA, hrB, hrAB, hvAB⟩ := sampler_concat M hM parameters
    indices num A Ta outA uA La B Tb outB uB Lb hnum hrange hA hTa houtA huA hB hTb houtB huB
  refine ⟨monA, uA1, monB, uB1, uAB, hrA, hrB, hrAB, ?_⟩
  intro a m out2 u2 ham hout2 hu2
  have eS : (a + m) * M.NUM_STATES = a * M.NUM_STATES + m * M.NUM_STATES := by ring
  have hS : (a + m) * M.NUM_STATES ≤ (La + Lb) * M.NUM_STATES :=
    Nat.mul_le_mul_right _ ham
  have eS2 : (La + Lb) * M.NUM_STATES = La * M.NUM_STATES + Lb * M.NUM_STATES := by ring
  obtain ⟨mon2, u3, hr2, -, hv2⟩ := sampler_pointwise M hM out2
    ((A ++ B).drop (a * M.NUM_STATES)) parameters u2 ((Ta ++ Tb).drop a) m indices num hu2
    (by rw [List.length_drop, List.length_append]; omega)
    (by rw [List.length_drop, List.length_append]; omega) hout2 hnum hrange
  refine ⟨mon2, u3, hr2, ?_⟩
  intro i hi
  apply List.ext_getElem?
  intro j
  rw [getElem?_row, getElem?_row]
  by_cases hj : j < num
  · obtain ⟨hd1, hm1⟩ := mul_add_div_mod num i j hj
    obtain ⟨hd2, hm2⟩ := mul_add_div_mod num (a + i) j hj
    have h1 : (i + 1) * num ≤ m * num := Nat.mul_le_mul_right _ (by omega)
    have h2 : (a + i + 1) * num ≤ (La + Lb) * num := Nat.mul_le_mul_right _ (by omega)
    have e1 : (i + 1) * num = i * num + num := by ring
    have e2 : (a + i + 1) * num = (a + i) * num + num := by ring
    rw [if_pos hj, if_pos hj, hv2, hvAB, if_pos (by omega), if_pos (by omega), hd1, hm1, hd2,
      hm2, monitor_at_drop]
  · rw [if_neg hj, if_neg hj]

/-- C13 at the toy model: one sample followed by two samples, indices `[2, 0]`. -/
theorem C13_sampler_concatenation_witness :
    toyModel.WellSized ∧ [(2 : Int), 0].length = 2 ∧
    (∀ ix ∈ [(2 : Int), 0], 0 ≤ ix ∧ ix < (toyModel.NUM_MONITORED : Int)) ∧
    [(1 : Int), 2].length = 1 * toyModel.NUM_STATES ∧ [(10 : Int)].length = 1 ∧
    [(9 : Int), 9].length = 1 * 2 ∧ [(0 : Int), 0].length = toyModel.NUM_STATES ∧
    2 * toyModel.NUM_STATES ≤ [(3 : Int), 4, 5, 6].length ∧ 2 ≤ [(20 : Int), 30].length ∧
    2 * 2 ≤ [(8 : Int), 8, 8, 8, 8].length ∧ [(7 : Int), 7].length = toyModel.NUM_STATES ∧
    (∃ monA uA1 monB uB1 uAB,
      monitored_values toyModel [9, 9] [1, 2] [3] [0, 0] [10] ((1 : Nat) : Int) [2, 0]
        ((2 : Nat) : Int) = .ok (monA, uA1) ∧
      monitored_values toyModel [8, 8, 8, 8, 8] [3, 4, 5, 6] [3] [7, 7] [20, 30]
        ((2 : Nat) : Int) [2, 0] ((2 : Nat) : Int) = .ok (monB, uB1) ∧
      monitored_values toyModel ([9, 9] ++ [8, 8, 8, 8, 8]) ([1, 2] ++ [3, 4, 5, 6]) [3] [0, 0]
        ([10] ++ [20, 30]) ((1 + 2 : Nat) : Int) [2, 0] ((2 : Nat) : Int)
        = .ok (monA ++ monB, uAB) ∧
      ∀ (a m : Nat) (out2 u2 : List Int), a + m ≤ 1 + 2 → m * 2 ≤ out2.length →
        u2.length = toyModel.NUM_STATES →
        ∃ mon2 u3,
          monitored_values toyModel out2
            (([(1 : Int), 2] ++ [3, 4, 5, 6]).drop (a * toyModel.NUM_STATES)) [3] u2
            (([(10 : Int)] ++ [20, 30]).drop a) (m : Int) [2, 0] ((2 : Nat) : Int)
            = .ok (mon2, u3) ∧
          ∀ i, i < m → row 2 mon2 i = row 2 (monA ++ monB) (a + i)) :=
  ⟨toyModel_wellSized, by decide, by decide, by decide, by decide, by decide, by decide,
    by decide, by decide, by decide, by decide,
    C13_sampler_concatenation toyModel toyModel_wellSized [3] [2, 0] 2
      [1, 2] [10] [9, 9] [0, 0] 1 [3, 4, 5, 6] [20, 30] [8, 8, 8, 8, 8] [7, 7] 2
      (by decide) (by decide) (by decide) (by decide) (by decide) (by decide)
      (by decide) (by decide) (by decide) (by decide)⟩

/-! ## The benchmark harness -/

theorem main_euler_body_eq {α : Type} [Add α] (M : Model α) (dt : α) :
    main_euler_body M dt = main_body M.forward_explicit_euler Scheme.forward_euler dt := rfl

theorem main_rush_larsen_body_eq {α : Type} [Add α] (M : Model α) (dt : α) :
    main_rush_larsen_body M dt
      = main_body M.forward_generalized_rush_larsen Scheme.rush_larsen dt := rfl

/-- A loop of `main` over `r` iterations: `states` and `parameters` stay as they are, and
iteration `k` calls the step on that same `states` at time `t + k * dt`. -/
theorem main_loop_spec {α : Type} [Field α] (step : List α → α → α → List α → List α)
    (sch : Scheme) (dt : α) (s : MainState α) (r : Nat) (lo : Int) :
    ∃ s1, loopFrom (main_body step sch dt) r lo s = .ok s1 ∧
      s1.states = s.states ∧ s1.parameters = s.parameters ∧
      s1.t = s.t + (r : α) * dt ∧
      s1.calls = s.calls ++ (List.range r).map (nth_call step sch dt s) ∧
      (r = 0 → s1.states_values = s.states_values) ∧
      (1 ≤ r → s1.states_values = (nth_call step sch dt s (r - 1)).values) := by
  apply loopFrom_inv (main_body step sch dt)
    (fun k s1 => s1.states = s.states ∧ s1.parameters = s.parameters ∧
      s1.t = s.t + (k : α) * dt ∧
      s1.calls = s.calls ++ (List.range k).map (nth_call step sch dt s) ∧
      (k = 0 → s1.states_values = s.states_values) ∧
      (1 ≤ k → s1.states_values = (nth_call step sch dt s (k - 1)).values))
    r lo s ⟨rfl, rfl, by simp, by simp, fun _ => rfl, fun h => absurd h (by decide)⟩
  intro k s1 _ ⟨h1, h2, h3, h4, _, _⟩
  refine ⟨_, rfl, h1, h2, ?_, ?_, ?_, ?_⟩
  · show s1.t + dt = s.t + ((k + 1 : Nat) : α) * dt
    rw [h3]
    push_cast
    ring
  · show s1.calls ++ [_] = _
    rw [h4, List.range_succ, List.map_append, List.append_assoc]
    simp only [List.map_cons, List.map_nil, nth_call, h1, h2, h3]
  · intro h
    omega
  · intro _
    show step s1.states s1.t dt s1.parameters = _
    simp only [nth_call, h1, h2, h3, Nat.add_sub_cancel]

theorem count_calls_append {α : Type} (sch : Scheme) (c1 c2 : List (StepCall α)) :
    count_calls sch (c1 ++ c2) = count_calls sch c1 + count_calls sch c2 := by
  simp only [count_calls, List.countP_append]

theorem count_calls_nth_same {α : Type} [Field α] (step : List α → α → α → List α → List α)
    (sch : Scheme) (dt : α) (s : MainState α) (r : Nat) :
    count_calls sch ((List.range r).map (nth_call step sch dt s)) = r := by
  induction r with
  | zero => rfl
  | succ r ih =>
    rw [List.range_succ, List.map_append, count_calls_append, ih]
    simp [count_calls, nth_call]

theorem count_calls_nth_other {α : Type} [Field α] (step : List α → α → α → List α → List α)
    (sch other : Scheme) (hne : sch ≠ other) (dt : α) (s : MainState α) (r : Nat) :
    count_calls other ((List.range r).map (nth_call step sch dt s)) = 0 := by
  induction r with
  | zero => rfl
  | succ r ih =>
    rw [List.range_succ, List.map_append, count_calls_append, ih]
    simp [count_calls, nth_call, hne]

/-- What `main` does once the step count is accepted: it returns 0 after `num_timesteps`
calls of the Euler step followed by `num_timesteps` calls of the Rush-Larsen step. -/
theorem main_run_spec {α : Type} [Field α] (M : Model α) (num_timesteps : Int)
    (states0 values0 parameters0 : List α) :
    ∃ s1 s2 : MainState α,
      main_run M num_timesteps states0 values0 parameters0 = .ok (MainOutcome.returned 0 s2) ∧
      s1.states = M.init_state_values states0 ∧
      s1.calls = (List.range num_timesteps.toNat).map
        (nth_call M.forward_explicit_euler Scheme.forward_euler (2 / 100000)
          { states := M.init_state_values states0, states_values := values0,
            parameters := M.init_parameter_values parameters0, t := 0, calls := [] }) ∧
      s2.calls = s1.calls ++ (List.range num_timesteps.toNat).map
        (nth_call M.forward_generalized_rush_larsen Scheme.rush_larsen (2 / 100000)
          { s1 with states := M.init_state_values s1.states }) := by
  obtain ⟨s1, h1, h1s, -, -, h1c, -, -⟩ := main_loop_spec M.forward_explicit_euler
    Scheme.forward_euler (2 / 100000 : α)
    { states := M.init_state_values states0, states_values := values0,
      parameters := M.init_parameter_values parameters0, t := 0, calls := [] }
    num_timesteps.toNat 0
  obtain ⟨s2, h2, -, -, -, h2c, -, -⟩ := main_loop_spec M.forward_generalized_rush_larsen
    Scheme.rush_larsen (2 / 100000 : α) { s1 with states := M.init_state_values s1.states }
    num_timesteps.toNat 0
  refine ⟨s1, s2, ?_, h1s, by simpa using h1c, h2c⟩
  simp only [main_run, forLt, sub_zero, main_euler_body_eq, main_rush_larsen_body_eq, h1, h2,
    bind, Except.bind, pure, Except.pure]

/-- C19: when an argument is given and its integer value is `≤ 0`, `main` ends by
`exit(EXIT_FAILURE)` with no call of a model step made; with a value `> 0` it returns 0 after
exactly that many calls of each scheme's step, and with no argument after exactly 1000000
calls of each. -/
theorem C19_harness_rejects_nonpositive {α : Type} [Field α] (M : Model α)
    (states0 values0 parameters0 : List α) :
    (∀ v : Int, v ≤ 0 →
      main M (some v) states0 values0 parameters0 = .ok (MainOutcome.exit_failure [])) ∧
    (∀ v : Int, 0 < v →
      ∃ s, main M (some v) states0 values0 parameters0 = .ok (MainOutcome.returned 0 s) ∧
        (count_calls Scheme.forward_euler s.calls : Int) = v ∧
        (count_calls Scheme.rush_larsen s.calls : Int) = v) ∧
    (∃ s, main M none states0 values0 parameters0 = .ok (MainOutcome.returned 0 s) ∧
      count_calls Scheme.forward_euler s.calls = 1000000 ∧
      count_calls Scheme.rush_larsen s.calls = 1000000) := by
  have hcount : ∀ N : Int, ∃ s,
      main_run M N states0 values0 parameters0 = .ok (MainOutcome.returned 0 s) ∧
      count_calls Scheme.forward_euler s.calls = N.toNat ∧
      count_calls Scheme.rush_larsen s.calls = N.toNat := by
    intro N
    obtain ⟨s1, s2, hrun, -, h1c, h2c⟩ := main_run_spec M N states0 values0 parameters0
    refine ⟨s2, hrun, ?_, ?_⟩
    · rw [h2c, h1c, count_calls_append, count_calls_nth_same,
        count_calls_nth_other _ Scheme.rush_larsen Scheme.forward_euler (by decide)]
      omega
    · rw [h2c, h1c, count_calls_append, count_calls_nth_same,
        count_calls_nth_other _ Scheme.forward_euler Scheme.rush_larsen (by decide)]
      omega
  refine ⟨?_, ?_, ?_⟩
  · intro v hv
    simp only [main, hv, if_true]
  · intro v hv
    obtain ⟨s, hrun, hfe, hrl⟩ := hcount v
    refine ⟨s, ?_, ?_, ?_⟩
    · simp only [main, not_le.mpr hv, if_false, hrun]
    · rw [hfe]; omega
    · rw [hrl]; omega
  · obtain ⟨s, hrun, hfe, hrl⟩ := hcount 1000000
    exact ⟨s, by simp only [main, hrun], by rw [hfe]; rfl, by rw [hrl]; rfl⟩

/-- C19 at the linear model with the arguments `-3` and `2`. -/
theorem C19_harness_rejects_nonpositive_witness :
    (-3 : Int) ≤ 0 ∧ (0 : Int) < 2 ∧
    main (linearModel (1 / 2 : ℚ)) (some (-3)) [0] [0] [] = .ok (MainOutcome.exit_failure []) ∧
    (∃ s, main (linearModel (1 / 2 : ℚ)) (some 2) [0] [0] [] = .ok (MainOutcome.returned 0 s) ∧
      (count_calls Scheme.forward_euler s.calls : Int) = 2 ∧
      (count_calls Scheme.rush_larsen s.calls : Int) = 2) :=
  ⟨by decide, by decide,
    (C19_harness_rejects_nonpositive (linearModel (1 / 2 : ℚ)) [0] [0] []).1 (-3) (by decide),
    (C19_harness_rejects_nonpositive (linearModel (1 / 2 : ℚ)) [0] [0] []).2.1 2 (by decide)⟩

/-- C18 fails on the code: with the argument `2` and the linear model (`k = 1/2`, default
state `[1]`), each loop of `main` calls its step twice on the unchanged array `states = [1]`,
so the state it computes last is one step from the default state, `[99999/100000]`, while the
corresponding driver, run for two steps from the same default state over the times `main`
passes to its calls, ends in the state after two sequential steps,
`[9999800001/10000000000]`. -/
theorem C18_harness_does_not_thread_state :
    ∃ s : MainState ℚ,
      main (linearModel (1 / 2 : ℚ)) (some 2) [0] [0] [] = .ok (MainOutcome.returned 0 s) ∧
      s.states = (linearModel (1 / 2 : ℚ)).init_state_values [0] ∧
      s.calls.map (fun c => c.states) = [[1], [1], [1], [1]] ∧
      last_values Scheme.forward_euler s.calls = some [99999 / 100000] ∧
      ode_solve_forward_euler (linearModel (1 / 2 : ℚ))
          ((linearModel (1 / 2 : ℚ)).init_state_values [0])
          ((linearModel (1 / 2 : ℚ)).init_parameter_values []) [1, 0, 0]
          (call_times Scheme.forward_euler s.calls) 2 (2 / 100000)
        = .ok ([9999800001 / 10000000000],
            [1, 99999 / 100000, 9999800001 / 10000000000]) ∧
      last_values Scheme.rush_larsen s.calls = some [99999 / 100000] ∧
      ode_solve_rush_larsen (linearModel (1 / 2 : ℚ))
          ((linearModel (1 / 2 : ℚ)).init_state_values [0])
          ((linearModel (1 / 2 : ℚ)).init_parameter_values []) [1, 0, 0]
          (call_times Scheme.rush_larsen s.calls) 2 (2 / 100000)
        = .ok ([9999800001 / 10000000000],
            [1, 99999 / 100000, 9999800001 / 10000000000]) ∧
      [(99999 / 100000 : ℚ)] ≠ [9999800001 / 10000000000] :=
  ⟨{ states := [1]
     states_values := [99999 / 100000]
     parameters := []
     t := 1 / 12500
     calls := [
       { scheme := Scheme.forward_euler, states := [1], t := 0, values := [99999 / 100000] },
       { scheme := Scheme.forward_euler, states := [1], t := 1 / 50000,
         values := [99999 / 100000] },
       { scheme := Scheme.rush_larsen, states := [1], t := 1 / 25000,
         values := [99999 / 100000] },
       { scheme := Scheme.rush_larsen, states := [1], t := 3 / 50000,
         values := [99999 / 100000] }] },
    by decide!⟩

end Gotranx
